import Mathlib

set_option maxRecDepth 8000

/-!
Shallow embedding of the core of `tera-proxy-game`:
  * `src/lib/connection/dispatch/index.js` (the `Dispatch` class and its
    helpers `iterateHooks`, `normalizeName`, `createHook`, `addHook`,
    `hook`, `unhook`, `setProtocolVersion`, `unload`, `handle`),
  * `src/lib/dispatch/dispatchWrapper.js` (the module wrapper), and
  * `src/lib/connection/index.js` (the `Connection` handshake state machine).

Byte buffers are `List Nat`; JavaScript object identity (reference
equality on hook handles and queue wrappers) is modelled with numeric
object ids allocated from a counter in the dispatcher state; thrown
exceptions are modelled with `Except`/`Option` results, with the state
at throw time preserved; the external codec (`tera-data-parser`) and the
per-version opcode maps are parameters of the model.
-/

namespace TeraProxy

/-- A byte buffer, one `Nat` per byte. -/
abbrev Bytes := List Nat

/-- `buf.readUInt16LE off` (`data.readUInt16LE(2)` in `handle`).  Node
throws a `RangeError` when the buffer is too short; messages reaching
`handle` are length-prefixed frames of at least 4 bytes, and all claims
use such buffers, so out-of-range bytes default to `0` here. -/
def readUInt16LE (b : Bytes) (off : Nat) : Nat :=
  b.getD off 0 + 256 * b.getD (off + 1) 0

/-- `buf.readUInt32LE(0)` used by the `Connection` state `-1` handler;
`none` models the `RangeError` on a buffer shorter than 4 bytes. -/
def readUInt32LE (b : Bytes) : Option Nat :=
  if 4 ≤ b.length then
    some (b.getD 0 0 + 256 * b.getD 1 0 + 65536 * b.getD 2 0 + 16777216 * b.getD 3 0)
  else none

/-- One element of the `version` array of a parsed `C_CHECK_VERSION`
event (`parsed.version` with fields `index` and `value`). -/
structure VersionItem where
  index : Nat
  value : Nat
deriving DecidableEq, Repr

/-- A parsed event produced by `protocol.parse`.  The payload is kept
abstract; the `version` field is the array read by the dynamic
protocol-version detection in `Dispatch.handle`. -/
structure Event where
  payload : Nat
  version : List VersionItem
deriving DecidableEq, Repr

/-- The four `$`-prefixed flags attached to buffers and events during
`Dispatch.handle` (`$fake`, `$incoming`, `$modified`, `$silenced`),
snapshotted at the moment a hook's callback is invoked. -/
structure Flags where
  fake : Bool
  incoming : Bool
  modified : Bool
  silenced : Bool
deriving DecidableEq, Repr

/-- A hook filter: each field is `true`, `false`, or `none` (JS `null`,
"don't care").  Source: the object built by `createHook`. -/
structure Filter where
  fake : Option Bool
  incoming : Option Bool
  modified : Option Bool
  silenced : Option Bool
deriving DecidableEq, Repr

/-- Result of a raw hook callback as inspected by `handle`:
`buffer b` is a `Buffer` return that is not reference-equal to `data`;
`same` is returning the `data` buffer itself; `boolean v` a boolean
return; `other` any other value (e.g. `undefined`); `error` a thrown
exception (caught by `tryIt`). -/
inductive RawRet
  | same
  | buffer (b : Bytes)
  | boolean (v : Bool)
  | other
  | error
deriving DecidableEq, Repr

/-- Result of a parsed (non-raw) hook callback as inspected by `handle`:
strict comparisons `result === true` / `result === false`, any other
value, or a thrown exception. -/
inductive EventRet
  | retTrue
  | retFalse
  | other
  | error
deriving DecidableEq, Repr

/-- A user callback.  JavaScript callbacks are untyped functions; the
dispatcher invokes them either in the raw shape
`cb(code, data, incoming, fake)` or the parsed shape `cb(event, fake)`
depending on the hook's `definitionVersion`, so the model carries both
shapes.  The first component of each result is the (possibly in-place
mutated) buffer or event; mutations made before a throw persist. -/
structure Callback where
  onRaw : Nat → Bytes → Flags → Bytes × RawRet
  onEvent : Event → Flags → Event × EventRet

/-- The no-op callback substituted by `createHook` when the last
argument is not a function (`cb = () => {}`). -/
def noopCallback : Callback :=
  { onRaw := fun _ d _ => (d, .other), onEvent := fun e _ => (e, .other) }

/-- A hook's `definitionVersion` after `createHook` normalization:
a number, `'*'`, or `'raw'`. -/
inductive DefVersion
  | version (n : Nat)
  | star
  | raw
deriving DecidableEq, Repr

/-- A key of the `this.hooks` map: the sentinel `'*'`, a numeric opcode,
or the sentinel `'_UNKNOWN'` for unresolved names. -/
inductive RegKey
  | star
  | code (n : Nat)
  | unknown
deriving DecidableEq, Repr

/-- A hook record as stored in the registry.  `id` models JavaScript
object identity (identity is by reference; two structurally equal hooks
are distinct); `moduleName` is `none` when the hook was registered
without a module tag. -/
structure Hook where
  id : Nat
  code : RegKey
  filter : Filter
  order : Int
  definitionVersion : DefVersion
  moduleName : Option String
  callback : Callback

/-- A group of hooks sharing one `order` value
(`{ <order>, hooks: [...] }` in the registry comment). -/
structure HookGroup where
  order : Int
  hooks : List Hook

/-- `normalizeName` from `dispatch/index.js`: one literal special case;
otherwise, a name without `'_'` has `'_'` inserted before each ASCII
uppercase letter and is uppercased; other names pass through. -/
def normalizeName (name : String) : String :=
  if name = "sF2pPremiumUserPermission" then "S_F2P_PremiumUser_Permission"
  else if name.toList.contains '_' then name
  else String.mk (((name.toList.map
    (fun c => if c.isUpper then [ '_', c ] else [c])).flatten).map Char.toUpper)

/-- `iterateHooks(globalHooks, codeHooks)`: merge of the two group
lists, yielding a whole group at a time, preferring the global group
when its `order` is less than or equal to the code-specific group's. -/
def iterateHooks : List HookGroup → List HookGroup → List Hook
  | [], [] => []
  | g :: gs, [] => g.hooks ++ iterateHooks gs []
  | [], c :: cs => c.hooks ++ iterateHooks [] cs
  | g :: gs, c :: cs =>
    if g.order ≤ c.order then g.hooks ++ iterateHooks gs (c :: cs)
    else c.hooks ++ iterateHooks (g :: gs) cs
termination_by gs cs => gs.length + cs.length

/-! ## Dispatcher state and registration (`Dispatch`) -/

/-- A partial filter given in `opts.filter`: the outer `Option` is
whether the field is present (JS `Object.assign` only overrides present
fields), the inner one is the tri-state value. -/
structure FilterSpec where
  fake : Option (Option Bool) := none
  incoming : Option (Option Bool) := none
  modified : Option (Option Bool) := none
  silenced : Option (Option Bool) := none

/-- The `opts` object accepted by `createHook`: `filter`, `order`
(`opts.order || 0`), and the deprecated `type` string. -/
structure Opts where
  filter : Option FilterSpec := none
  order : Option Int := none
  type : Option String := none

instance : Inhabited Opts := ⟨{}⟩

/-- One positional JavaScript argument of `hook(...)` after the name,
as discriminated by `createHook` with `typeof` checks. -/
inductive HookArg
  | num (n : Nat)
  | str (s : String)
  | obj (o : Opts)
  | fn (f : Callback)
  | undef

/-- JavaScript truthiness of a `HookArg` (`if (version)` / `if (opts)`:
`0`, `''` and `undefined` are falsy). -/
def HookArg.truthy : HookArg → Bool
  | .num n => n ≠ 0
  | .str s => s ≠ ""
  | .obj _ => true
  | .fn _ => true
  | .undef => false

/-- `typeof version === 'number' || typeof version === 'string'`. -/
def HookArg.isNumOrStr : HookArg → Bool
  | .num _ => true
  | .str _ => true
  | _ => false

/-- `typeof opts === 'object'`. -/
def HookArg.isObj : HookArg → Bool
  | .obj _ => true
  | _ => false

/-- The base object passed as `createHook`'s first argument: a fresh
`{}` for live registration, or the queued handle object (which the
wrapper may already have tagged with a module name).  `Object.assign`
writes the hook fields onto it and keeps `id` and `moduleName`. -/
structure HookBase where
  id : Nat
  moduleName : Option String
deriving DecidableEq, Repr

/-- A per-version opcode map (`protocol.maps.get(v)`): `name` is the
`name → code` map; the `code → name` direction is used by the source
only for log messages and is not modelled. -/
structure ProtocolMap where
  name : String → Option Nat

/-- The model of the external collaborators of `dispatch/index.js`:
`protocol.maps`, the first key of that map (insertion order of
`protocol.load`, used by the `C_CHECK_VERSION` detection), and the
codec's `parse`/`write`, where `none` models a thrown codec error. -/
structure Env where
  maps : Nat → Option ProtocolMap
  firstMapKey : Nat
  parse : Nat → Nat → DefVersion → Bytes → Option Event
  write : Nat → Nat → DefVersion → Event → Option Bytes

/-- An entry of `this.queuedHooks`: the wrapper object `{ hook, args }`
pushed by `hook(...)` while the protocol version is unknown.
`wrapperId` is the identity of the wrapper object itself, distinct from
the identity `base.id` of the returned handle. -/
structure QueuedHook where
  wrapperId : Nat
  base : HookBase
  name : String
  version : HookArg
  opts : HookArg
  cb : HookArg

/-- A loaded module record; only the presence of a `destructor`
function matters to the claims. -/
structure ModuleRec where
  hasDestructor : Bool
deriving DecidableEq, Repr

/-- The registry `this.hooks`, a `Map` from key to ordered group list,
as an association list in key-insertion order. -/
abbrev Registry := List (RegKey × List HookGroup)

/-- `this.hooks.get(k)`. -/
def registryGet (r : Registry) (k : RegKey) : Option (List HookGroup) :=
  (r.find? (fun e => e.1 = k)).map (·.2)

/-- `this.hooks.set(k, v)`: overwrite in place, or append a new key. -/
def registrySet (r : Registry) (k : RegKey) (v : List HookGroup) : Registry :=
  if r.any (fun e => e.1 = k) then
    r.map (fun e => if e.1 = k then (k, v) else e)
  else r ++ [(k, v)]

/-- The mutable state of a `Dispatch` instance.  `nextId` is the
allocator for JavaScript object identities (hook handles and queue
wrapper objects). -/
structure DState where
  hooks : Registry
  queuedHooks : List QueuedHook
  protocolVersion : Nat
  protocolMap : Option ProtocolMap
  modules : List (String × ModuleRec)
  nextId : Nat

/-- `createHook(base, name, version, opts, cb)` (the logging calls are
not modelled).  The `Except` error models the two exceptions this
function can raise: the `TypeError` of the misplaced
`log.error([...]).join('\n')` on the `'*'`-with-numeric-version path
(where the `.join` is applied to `log.error`'s `undefined` return
value, not to the array), and the `TypeError` of reading
`this.protocolMap.name` when no protocol map is set, plus the
`TypeError` of reading `opts.filter` when `opts` ended up `undefined`. -/
def createHook (pmap : Option ProtocolMap) (base : HookBase) (name : String)
    (version₀ opts₀ cb₀ : HookArg) : Except Unit Hook :=
  -- argument-shape untangling
  let sv := version₀.truthy && !version₀.isNumOrStr
  let version := if sv then HookArg.str "*" else version₀
  let opts₁ := if sv then version₀ else opts₀
  let cb₁ := if sv then opts₀ else cb₀
  let so := opts₁.truthy && !opts₁.isObj
  let opts := if so then HookArg.obj {} else opts₁
  let cb₂ := if so then opts₁ else cb₁
  let cb := match cb₂ with
    | .fn f => f
    | _ => noopCallback
  -- retrieve opcode
  (match name with
    | "*" =>
      match version with
      | .num _ => Except.error ()  -- the misplaced-join TypeError fires here
      | _ => Except.ok (RegKey.star, version)
    | _ =>
      match pmap with
      | none => Except.error ()  -- `this.protocolMap.name` on undefined
      | some m =>
        let code := match m.name (normalizeName name) with
          | some c => RegKey.code c
          | none => RegKey.unknown
        Except.ok (code, version)).bind fun (code, version) =>
  -- check version
  let definitionVersion : DefVersion := match version with
    | .num n => .version n
    | .str s => if s = "raw" then .raw else .star  -- 'latest' and others become '*'
    | _ => .star
  -- check filters
  (match opts with
    | .obj o => Except.ok o
    | .undef => Except.error ()  -- `opts.filter` on undefined
    | _ => Except.ok {}).bind fun o =>
  let spec := o.filter.getD {}
  let filter : Filter :=
    { fake := spec.fake.getD (some false)
      incoming := spec.incoming.getD none
      modified := spec.modified.getD none
      silenced := spec.silenced.getD (some false) }
  let filter := if o.type = some "all" then { filter with fake := none } else filter
  let filter := if o.type = some "fake" then { filter with fake := some true } else filter
  let filter := if o.type = some "real" then { filter with fake := some false } else filter
  Except.ok
    { id := base.id
      code := code
      filter := filter
      order := o.order.getD 0
      definitionVersion := definitionVersion
      moduleName := base.moduleName
      callback := cb }

/-- Ordered insertion of a hook into a group list: the model of
`addHook`'s `binarySearch` + `splice`/`push` over a list that is kept
strictly sorted by `order` (a new group is spliced in at the insertion
point, an existing group of the same `order` gets the hook appended). -/
def insertHook (hook : Hook) : List HookGroup → List HookGroup
  | [] => [⟨hook.order, [hook]⟩]
  | g :: gs =>
    if hook.order < g.order then ⟨hook.order, [hook]⟩ :: g :: gs
    else if hook.order = g.order then ⟨g.order, g.hooks ++ [hook]⟩ :: gs
    else g :: insertHook hook gs

/-- `addHook(hook)`. -/
def addHook (s : DState) (hook : Hook) : DState :=
  let ordering := (registryGet s.hooks hook.code).getD []
  { s with hooks := registrySet s.hooks hook.code (insertHook hook ordering) }

/-- `hook(...args)`: while the protocol version is `0`, allocate the
handle object and the `{ hook, args }` wrapper and push the wrapper on
the queue; otherwise create the hook live and insert it.  The returned
`Nat` is the identity of the handle object. -/
def hook (s : DState) (name : String) (version opts cb : HookArg) :
    DState × Except Unit Nat :=
  if s.protocolVersion = 0 then
    let hId := s.nextId
    ({ s with
        nextId := s.nextId + 2
        queuedHooks := s.queuedHooks ++
          [{ wrapperId := s.nextId + 1, base := ⟨hId, none⟩
             name := name, version := version, opts := opts, cb := cb }] },
      .ok hId)
  else
    let hId := s.nextId
    let s := { s with nextId := s.nextId + 1 }
    match createHook s.protocolMap ⟨hId, none⟩ name version opts cb with
    | .error e => (s, .error e)
    | .ok h => (addHook s h, .ok hId)

/-- `unhook(hook)`.  The caller passes the handle object; `hId` is its
identity and `hCode`/`hOrder` its `code`/`order` fields (present once
materialized).  While the protocol version is `0` the source filters
`queuedHooks` with `h => h !== hook`, comparing each `{ hook, args }`
wrapper object against the handle object. -/
def unhook (s : DState) (hId : Nat) (hCode : RegKey) (hOrder : Int) : DState :=
  if s.protocolVersion = 0 then
    { s with queuedHooks := s.queuedHooks.filter (fun q => q.wrapperId ≠ hId) }
  else
    match registryGet s.hooks hCode with
    | none => s
    | some ordering =>
      -- `ordering.find(o => o.order === hook.order)`: filter the first
      -- matching group's hooks by reference inequality with the handle
      let ordering' := ordering.replaceF (fun g =>
        if g.order = hOrder then
          some { g with hooks := g.hooks.filter (fun h => h.id ≠ hId) }
        else none)
      { s with hooks := registrySet s.hooks hCode ordering' }

/-- The queue drain inside `setProtocolVersion`: each queued
registration is materialized with `createHook` onto its original handle
object and inserted.  A `createHook` exception propagates, leaving the
registry updated for the entries already drained (and the queue already
cleared). -/
def drainQueued : DState → List QueuedHook → DState × Option Unit
  | s, [] => (s, none)
  | s, q :: qs =>
    match createHook s.protocolMap q.base q.name q.version q.opts q.cb with
    | .error _ => (s, some ())
    | .ok h => drainQueued (addHook s h) qs

/-- `setProtocolVersion(version)`: store the version and its map; when
the map exists, drain the queued hooks in order (when it does not, only
an error is logged and the queue is left as is). -/
def setProtocolVersion (env : Env) (s : DState) (version : Nat) :
    DState × Option Unit :=
  let s := { s with protocolVersion := version, protocolMap := env.maps version }
  match env.maps version with
  | none => (s, none)
  | some _ =>
    let queued := s.queuedHooks
    drainQueued { s with queuedHooks := [] } queued

/-- `unload(name)`: returns the new state, the boolean result, and the
number of destructor invocations performed (a destructor exception is
caught, so a present destructor is always invoked exactly once). -/
def unload (s : DState) (name : String) : DState × Bool × Nat :=
  match (s.modules.find? (fun e => e.1 = name)).map (·.2) with
  | none => (s, false, 0)
  | some m =>
    let s := { s with hooks := s.hooks.map (fun (e : RegKey × List HookGroup) =>
      (e.1, e.2.map (fun (g : HookGroup) =>
        { g with hooks := g.hooks.filter (fun h => h.moduleName ≠ some name) }))) }
    ({ s with modules := s.modules.filter (fun e => e.1 ≠ name) }, true,
      if m.hasDestructor then 1 else 0)

/-- Modelled from the spec: `dispatchWrapper.js` delegates `hook()` to
`this.base.hookFromModule(this.moduleName, ...arguments)`, a `Dispatch`
method that is not present under `src/`; §4.F of the specification
describes the wrapper's `hook` as "pre-tagged with the module's name so
the registry can revoke on unload".  The model registers through
`hook` and then writes `moduleName` onto the handle object — the
registry hook when live, the queued base object when pending. -/
def hookFromModule (s : DState) (modName : String) (name : String)
    (version opts cb : HookArg) : DState × Except Unit Nat :=
  match hook s name version opts cb with
  | (s, .error e) => (s, .error e)
  | (s, .ok hId) =>
    ({ s with
        hooks := s.hooks.map (fun (e : RegKey × List HookGroup) =>
          (e.1, e.2.map (fun (g : HookGroup) =>
          { g with hooks := g.hooks.map (fun h =>
              if h.id = hId then { h with moduleName := some modName } else h) })))
        queuedHooks := s.queuedHooks.map (fun q =>
          if q.base.id = hId then { q with base := { q.base with moduleName := some modName } }
          else q) },
      .ok hId)

/-! ## Message handling (`Dispatch.handle`) -/

/-- The value `handle` returns: a buffer, or `false` (silenced). -/
inductive HandleOut
  | silencedOut
  | bytes (b : Bytes)
deriving DecidableEq, Repr

/-- The four `continue`-on-mismatch filter checks at the head of the
hook loop: the hook runs iff every non-null filter field agrees with
the current value. -/
def filterMatch (f : Filter) (fake incoming modified silenced : Bool) : Bool :=
  (match f.fake with | none => true | some v => v = fake) &&
  (match f.incoming with | none => true | some v => v = incoming) &&
  (match f.modified with | none => true | some v => v = modified) &&
  (match f.silenced with | none => true | some v => v = silenced)

/-- The loop-local state of `handle`: the working buffer `data` and the
`modified`/`silenced` booleans. -/
structure LoopSt where
  data : Bytes
  modified : Bool
  silenced : Bool
deriving DecidableEq, Repr

/-- Outcome of the hook loop: `abortParse d` is the early
`return data` when a parsed hook's codec parse throws; `done` is
normal completion. -/
inductive LoopOut
  | abortParse (d : Bytes)
  | done (s : LoopSt)
deriving DecidableEq, Repr

/-- One raw-hook iteration of the loop in `handle`.  `copy` is the
snapshot `Buffer.from(data)` taken at entry.  The callback receives the
flag values current at the call; its first result component is the
content of the `data` buffer after any in-place mutation, which
persists even when the callback throws. -/
def stepRaw (code : Nat) (incoming fake : Bool) (copy : Bytes) (h : Hook)
    (s : LoopSt) : LoopSt :=
  match h.callback.onRaw code s.data ⟨fake, incoming, s.modified, s.silenced⟩ with
  | (d, .error) => { s with data := d }  -- logged, `continue`
  | (d, .buffer b) =>
    -- a Buffer result with `result !== data`
    { data := b
      modified := s.modified || decide (b.length ≠ d.length) || decide (b ≠ d)
      silenced := s.silenced }
  | (d, .same) =>
    { s with data := d, modified := s.modified || decide (d ≠ copy) }
  | (d, .boolean v) =>
    { data := d, modified := s.modified || decide (d ≠ copy), silenced := !v }
  | (d, .other) =>
    { s with data := d, modified := s.modified || decide (d ≠ copy) }

/-- Outcome of one parsed-hook iteration. -/
inductive StepOut
  | cont (s : LoopSt)
  | abort (d : Bytes)
deriving DecidableEq, Repr

/-- One parsed-hook iteration: parse (a throw aborts the whole loop,
returning the current buffer), attach the snapshot flags, run the
callback; `true` clears `silenced` and re-serializes (a `write` throw
is logged and leaves `data` as is); `false` sets `silenced`. -/
def stepEvent (env : Env) (pv code : Nat) (incoming fake : Bool) (h : Hook)
    (s : LoopSt) : StepOut :=
  match env.parse pv code h.definitionVersion s.data with
  | none => .abort s.data
  | some ev =>
    match h.callback.onEvent ev ⟨fake, incoming, s.modified, s.silenced⟩ with
    | (_, .error) => .cont s  -- logged, loop continues
    | (ev, .retTrue) =>
      .cont { s with
        data := (env.write pv code h.definitionVersion ev).getD s.data
        silenced := false }
    | (_, .retFalse) => .cont { s with silenced := true }
    | (_, .other) => .cont s

/-- The hook loop of `handle` over the merged iteration order. -/
def runHooks (env : Env) (pv code : Nat) (incoming fake : Bool) (copy : Bytes) :
    List Hook → LoopSt → LoopOut
  | [], s => .done s
  | h :: hs, s =>
    if filterMatch h.filter fake incoming s.modified s.silenced then
      if h.definitionVersion = .raw then
        runHooks env pv code incoming fake copy hs (stepRaw code incoming fake copy h s)
      else
        match stepEvent env pv code incoming fake h s with
        | .abort d => .abortParse d
        | .cont s' => runHooks env pv code incoming fake copy hs s'
    else runHooks env pv code incoming fake copy hs s

/-- The dynamic protocol-version detection at the head of `handle`:
when the opcode is `19900` (`C_CHECK_VERSION`) and the protocol version
is still `0`, parse under the earliest map key with definition version
`1` and, when `version[0]` exists with `index == 0`, call
`setProtocolVersion` (whose queue drain may throw). -/
def checkVersionDetect (env : Env) (s : DState) (code : Nat) (data : Bytes) :
    DState × Option Unit :=
  if code = 19900 ∧ s.protocolVersion = 0 then
    match env.parse env.firstMapKey code (.version 1) data with
    | none => (s, none)  -- parse failure: logged only
    | some parsed =>
      match parsed.version.head? with
      | none => (s, none)  -- missing item: logged only
      | some item =>
        if item.index = 0 then setProtocolVersion env s item.value
        else (s, none)
  else (s, none)

/-- `handle(data, incoming, fake = false)`.  The `Except` error is an
exception escaping `handle` (only possible from the queue drain inside
the dynamic version detection). -/
def handle (env : Env) (s : DState) (data : Bytes) (incoming : Bool)
    (fake : Bool := false) : DState × Except Unit HandleOut :=
  let code := readUInt16LE data 2
  match checkVersionDetect env s code data with
  | (s, some e) => (s, .error e)
  | (s, none) =>
    let copy := data
    let globalHooks := registryGet s.hooks .star
    let codeHooks := registryGet s.hooks (.code code)
    if globalHooks.isNone ∧ codeHooks.isNone then (s, .ok (.bytes data))
    else
      match runHooks env s.protocolVersion code incoming fake copy
          (iterateHooks (globalHooks.getD []) (codeHooks.getD []))
          ⟨data, false, false⟩ with
      | .abortParse d => (s, .ok (.bytes d))  -- forwarded even when silenced
      | .done st => (s, .ok (if st.silenced then .silencedOut else .bytes st.data))

/-! ## Connection handshake state machine (`src/lib/connection/index.js`) -/

/-- One `Encryption` session: the four 128-byte keys and whether
`init()` has been called. -/
structure EncSession where
  clientKey0 : Bytes := []
  clientKey1 : Bytes := []
  serverKey0 : Bytes := []
  serverKey1 : Bytes := []
  inited : Bool := false
deriving DecidableEq, Repr

/-- The Connection state relevant to the handshake: the `state` field
and the two sessions.  The packet buffers and steady-state splice are
outside the handshake claims. -/
structure ConnSt where
  state : Int
  session1 : EncSession := {}
  session2 : EncSession := {}
deriving DecidableEq, Repr

/-- Observable actions of a Connection data handler. -/
inductive ConnOut
  | toServer (b : Bytes)
  | toClient (b : Bytes)
  | steady
deriving DecidableEq, Repr

/-- The `this.socket.on('data', ...)` handler (bytes from the game
client).  State `0`/`1`: a 128-byte datagram is copied into
`clientKeys[0]`/`clientKeys[1]` of both sessions and written to the
server socket; no case changes `this.state`.  State `2` is the
steady-state decrypt/splice, modelled only as an opaque action since no
claim concerns it.  Other states (including `-1`) fall through the
`switch` with no action. -/
def onSocketData (c : ConnSt) (data : Bytes) : ConnSt × List ConnOut :=
  if c.state = 0 then
    if data.length = 128 then
      ({ c with
          session1 := { c.session1 with clientKey0 := data }
          session2 := { c.session2 with clientKey0 := data } },
        [.toServer data])
    else (c, [])
  else if c.state = 1 then
    if data.length = 128 then
      ({ c with
          session1 := { c.session1 with clientKey1 := data }
          session2 := { c.session2 with clientKey1 := data } },
        [.toServer data])
    else (c, [])
  else if c.state = 2 then (c, [.steady])
  else (c, [])

/-- The `this.client.on('data', ...)` handler (bytes from the game
server).  State `-1`: a datagram reading `1u32 LE` advances to state
`0` and is forwarded to the game client.  State `0`/`1`: a 128-byte
datagram is copied into `serverKeys[0]`/`serverKeys[1]` of both
sessions, state `1` additionally calls `init()` on both sessions, and
the state advances to `1`/`2`.  State `2` is the opaque steady-state
splice. -/
def onServerData (c : ConnSt) (data : Bytes) : ConnSt × List ConnOut :=
  if c.state = -1 then
    match readUInt32LE data with
    | some 1 => ({ c with state := 0 }, [.toClient data])
    | _ => (c, [])
  else if c.state = 0 then
    if data.length = 128 then
      ({ c with
          state := 1
          session1 := { c.session1 with serverKey0 := data }
          session2 := { c.session2 with serverKey0 := data } },
        [.toClient data])
    else (c, [])
  else if c.state = 1 then
    if data.length = 128 then
      ({ c with
          state := 2
          session1 := { c.session1 with serverKey1 := data, inited := true }
          session2 := { c.session2 with serverKey1 := data, inited := true } },
        [.toClient data])
    else (c, [])
  else if c.state = 2 then (c, [.steady])
  else (c, [])

/-! ## Shared concrete material for witnesses and counterexamples -/

/-- The hook filter defaults built by `createHook` when no `filter`
option is given: `{fake:false, incoming:null, modified:null,
silenced:false}`. -/
def defaultFilter : Filter := ⟨some false, none, none, some false⟩

/-- A filter with every field `null` (matches everything). -/
def nullFilter : Filter := ⟨none, none, none, none⟩

/-- A parsed callback that always returns `true`. -/
def cbRetTrue : Callback :=
  { onRaw := fun _ d _ => (d, .other), onEvent := fun e _ => (e, .retTrue) }

/-- A parsed callback that always returns `false`. -/
def cbRetFalse : Callback :=
  { onRaw := fun _ d _ => (d, .other), onEvent := fun e _ => (e, .retFalse) }

/-- A parsed callback that silences exactly when it observes
`$modified = false` (used to witness which flag value a hook sees). -/
def cbSilenceIfUnmodified : Callback :=
  { onRaw := fun _ d _ => (d, .other)
    onEvent := fun e fl => (e, if fl.modified then .other else .retFalse) }

/-- A raw callback that returns a fresh buffer `b` (a `Buffer` result
with `result !== data`) without mutating `data` in place. -/
def cbRawReplace (b : Bytes) : Callback :=
  { onRaw := fun _ d _ => (d, .buffer b), onEvent := fun e _ => (e, .other) }

/-- A convenience hook constructor for concrete scenarios. -/
def mkHook (id : Nat) (code : RegKey) (f : Filter) (o : Int) (dv : DefVersion)
    (cb : Callback) : Hook :=
  { id := id, code := code, filter := f, order := o, definitionVersion := dv
    moduleName := none, callback := cb }

/-- A codec whose parse always succeeds with a fixed event and whose
write always produces the buffer `[8, 0, 5, 0, 170]`. -/
def envParseOk : Env :=
  { maps := fun _ => none
    firstMapKey := 0
    parse := fun _ _ _ _ => some ⟨0, []⟩
    write := fun _ _ _ _ => some [8, 0, 5, 0, 170] }

/-- A codec whose parse always throws. -/
def envParseFail : Env :=
  { envParseOk with parse := fun _ _ _ _ => none }

/-- A dispatcher state with a given registry, no queue, protocol
version `1`, no protocol map, no modules. -/
def mkDState (r : Registry) : DState :=
  { hooks := r, queuedHooks := [], protocolVersion := 1, protocolMap := none
    modules := [], nextId := 100 }

/-- All hooks stored anywhere in a registry. -/
def registryHooks (r : Registry) : List Hook :=
  r.flatMap (fun e => e.2.flatMap (·.hooks))

/-! ## C10: the `modified` flag is monotone within one `handle` call -/

/-- `stepRaw` never resets `modified`. -/
theorem stepRaw_modified_mono (code : Nat) (incoming fake : Bool) (copy : Bytes)
    (h : Hook) (s : LoopSt) (hm : s.modified = true) :
    (stepRaw code incoming fake copy h s).modified = true := by
  unfold stepRaw
  rcases hx : h.callback.onRaw code s.data ⟨fake, incoming, s.modified, s.silenced⟩ with ⟨d, r⟩
  cases r <;> simp [hm]

/-- `stepEvent` never resets `modified`. -/
theorem stepEvent_modified_mono (env : Env) (pv code : Nat) (incoming fake : Bool)
    (h : Hook) (s s' : LoopSt)
    (hs : stepEvent env pv code incoming fake h s = .cont s')
    (hm : s.modified = true) : s'.modified = true := by
  unfold stepEvent at hs
  rcases hp : env.parse pv code h.definitionVersion s.data with _ | ev
  · rw [hp] at hs; exact absurd hs (by simp)
  · rw [hp] at hs
    rcases hc : h.callback.onEvent ev ⟨fake, incoming, s.modified, s.silenced⟩ with ⟨ev', r⟩
    simp only [hc] at hs
    cases r <;> cases hs <;> simp [hm]

/-- C10.  Within a single call to `Dispatch.handle`, the internal
`modified` flag is monotone over the hook loop: it is only ever updated
by disjunction with a new condition (raw-hook branch) and is never
assigned in the parsed-hook branch, so once it is `true` at any point
of the chain it is `true` in every later state — hence every later
hook (whose flags snapshot the state at its invocation) observes
`$modified = true`.  The flag starts `false`: `handle` invokes
`runHooks` with initial state `⟨data, false, false⟩` by definition. -/
theorem c10_modified_monotone (env : Env) (pv code : Nat) (incoming fake : Bool)
    (copy : Bytes) (hs : List Hook) (s st : LoopSt)
    (hrun : runHooks env pv code incoming fake copy hs s = .done st)
    (hm : s.modified = true) : st.modified = true := by
  induction hs generalizing s with
  | nil =>
    simp only [runHooks] at hrun
    cases hrun
    exact hm
  | cons h t ih =>
    simp only [runHooks] at hrun
    by_cases hf : filterMatch h.filter fake incoming s.modified s.silenced
    · rw [if_pos hf] at hrun
      by_cases hr : h.definitionVersion = .raw
      · rw [if_pos hr] at hrun
        exact ih _ hrun (stepRaw_modified_mono code incoming fake copy h s hm)
      · rw [if_neg hr] at hrun
        rcases hse : stepEvent env pv code incoming fake h s with s' | d
        · rw [hse] at hrun
          exact ih _ hrun (stepEvent_modified_mono env pv code incoming fake h s s' hse hm)
        · rw [hse] at hrun; exact absurd hrun (by simp)
    · rw [if_neg hf] at hrun
      exact ih _ hrun hm

/-- Witness for C10 at a concrete input: a chain of one parsed hook run
from a state with `modified = true` finishes with `modified = true`. -/
theorem c10_witness :
    runHooks envParseOk 1 5 false false [] [mkHook 0 (.code 5) nullFilter 0 .star cbRetFalse]
      ⟨[9], true, false⟩ = .done ⟨[9], true, true⟩ ∧
    (⟨[9], true, true⟩ : LoopSt).modified = true := by
  refine ⟨by decide, ?_⟩
  exact c10_modified_monotone envParseOk 1 5 false false []
    [mkHook 0 (.code 5) nullFilter 0 .star cbRetFalse] ⟨[9], true, false⟩
    ⟨[9], true, true⟩ (by decide) rfl

/-! ## Shared lemmas about the hook loop and `handle` -/

/-- The hook loop processes an appended chain segment from the state
the first segment finished in, and an abort in the first segment
short-circuits the rest. -/
theorem runHooks_append (env : Env) (pv code : Nat) (incoming fake : Bool)
    (copy : Bytes) (l₁ l₂ : List Hook) (s : LoopSt) :
    runHooks env pv code incoming fake copy (l₁ ++ l₂) s =
      match runHooks env pv code incoming fake copy l₁ s with
      | .done s₁ => runHooks env pv code incoming fake copy l₂ s₁
      | .abortParse d => .abortParse d := by
  induction l₁ generalizing s with
  | nil => simp [runHooks]
  | cons h t ih =>
    simp only [List.cons_append, runHooks, List.append_eq]
    by_cases hf : filterMatch h.filter fake incoming s.modified s.silenced
    · rw [if_pos hf, if_pos hf]
      by_cases hr : h.definitionVersion = .raw
      · rw [if_pos hr, if_pos hr]
        exact ih _
      · rw [if_neg hr, if_neg hr]
        rcases stepEvent env pv code incoming fake h s with s' | d
        · exact ih s'
        · rfl
    · rw [if_neg hf, if_neg hf]
      exact ih s

/-- `handle` on a registry holding a single group under the message's
own opcode reduces to the hook loop over that group's hooks, starting
from `⟨data, false, false⟩`, with an abort forwarded as bytes and the
final `silenced` deciding the result. -/
theorem handle_single (env : Env) (s : DState) (data : Bytes) (incoming fake : Bool)
    (c : Nat) (o : Int) (chain : List Hook)
    (hc : readUInt16LE data 2 = c)
    (hnv : ¬(c = 19900 ∧ s.protocolVersion = 0))
    (hreg : s.hooks = [(.code c, [⟨o, chain⟩])]) :
    handle env s data incoming fake =
      (s, .ok (match runHooks env s.protocolVersion c incoming fake data chain
          ⟨data, false, false⟩ with
        | .abortParse d => .bytes d
        | .done st => if st.silenced then .silencedOut else .bytes st.data)) := by
  have hstar : registryGet [(RegKey.code c, [⟨o, chain⟩])] .star = none := by
    simp [registryGet]
  have hcode : registryGet [(RegKey.code c, [⟨o, chain⟩])] (.code c) = some [⟨o, chain⟩] := by
    simp [registryGet]
  unfold handle checkVersionDetect
  simp only [hc, hnv, if_false, hreg, hstar, hcode]
  simp only [iterateHooks, List.append_nil, Option.getD, Option.isNone]
  rcases runHooks env s.protocolVersion c incoming fake data chain
    ⟨data, false, false⟩ with d | st <;> simp

/-! ## C3: a parsed hook returning `true` does not mark the message modified -/

/-- A parsed hook that always returns `true` on opcode `5`. -/
def c3HookTrue : Hook := mkHook 0 (.code 5) nullFilter 0 (.version 1) cbRetTrue

/-- A hook whose filter requires `modified = true` and whose callback
silences; under the claim it would run after `c3HookTrue` and silence
the message. -/
def c3HookWantsModified : Hook :=
  mkHook 1 (.code 5) ⟨none, none, some true, none⟩ 0 (.version 1) cbRetFalse

/-- Counterexample to C3 at a concrete input: after a parsed hook
returns `true` and the event is re-serialized (the working buffer
changes from `[8,0,5,0,170,9]` to `[8,0,5,0,170]`), the loop state
still has `modified = false`, and a subsequent hook filtering on
`modified = true` is skipped, so `handle` forwards the message instead
of the silencing the claim would predict. -/
theorem c3_counterexample :
    runHooks envParseOk 1 5 false false [8, 0, 5, 0, 170, 9] [c3HookTrue]
      ⟨[8, 0, 5, 0, 170, 9], false, false⟩ = .done ⟨[8, 0, 5, 0, 170], false, false⟩ ∧
    ([8, 0, 5, 0, 170] : Bytes) ≠ [8, 0, 5, 0, 170, 9] ∧
    (handle envParseOk (mkDState [(.code 5, [⟨0, [c3HookTrue, c3HookWantsModified]⟩])])
      [8, 0, 5, 0, 170, 9] false false).2 = .ok (.bytes [8, 0, 5, 0, 170]) := by
  refine ⟨by decide, by decide, ?_⟩
  rw [handle_single envParseOk _ _ false false 5 0 [c3HookTrue, c3HookWantsModified]
    (by decide) (by decide) rfl]
  rfl

/-- C3 (amended).  When a parsed (non-raw) hook whose filter matches
returns `true`, `handle` clears the `silenced` flag and re-serializes
the event into the working buffer, but it does not mark the message as
modified: the `modified` flag is left exactly as it was, so hooks
executed later in the same call observe `$modified` (and have
`filter.modified` matched) against that unchanged value. -/
theorem c3_reserialize_keeps_modified (env : Env) (pv code : Nat)
    (incoming fake : Bool) (copy : Bytes) (h : Hook) (hs : List Hook)
    (s : LoopSt) (ev ev' : Event) (b : Bytes)
    (hraw : h.definitionVersion ≠ .raw)
    (hf : filterMatch h.filter fake incoming s.modified s.silenced = true)
    (hp : env.parse pv code h.definitionVersion s.data = some ev)
    (hcb : h.callback.onEvent ev ⟨fake, incoming, s.modified, s.silenced⟩ = (ev', .retTrue))
    (hw : env.write pv code h.definitionVersion ev' = some b) :
    runHooks env pv code incoming fake copy (h :: hs) s =
      runHooks env pv code incoming fake copy hs ⟨b, s.modified, false⟩ := by
  simp only [runHooks, if_pos hf, if_neg hraw]
  unfold stepEvent
  rw [hp]
  simp only [hcb, hw]
  rfl

/-- Witness for C3 (amended) at a concrete input. -/
theorem c3_witness :
    (filterMatch c3HookTrue.filter false false false false = true ∧
      envParseOk.parse 1 5 c3HookTrue.definitionVersion [8, 0, 5, 0, 170, 9] =
        some ⟨0, []⟩ ∧
      c3HookTrue.callback.onEvent ⟨0, []⟩ ⟨false, false, false, false⟩ =
        (⟨0, []⟩, .retTrue) ∧
      envParseOk.write 1 5 c3HookTrue.definitionVersion ⟨0, []⟩ =
        some [8, 0, 5, 0, 170]) ∧
    runHooks envParseOk 1 5 false false [8, 0, 5, 0, 170, 9] [c3HookTrue]
        ⟨[8, 0, 5, 0, 170, 9], false, false⟩ =
      runHooks envParseOk 1 5 false false [8, 0, 5, 0, 170, 9] []
        ⟨[8, 0, 5, 0, 170], false, false⟩ :=
  ⟨⟨by decide, by decide, by decide, by decide⟩,
    c3_reserialize_keeps_modified envParseOk 1 5 false false [8, 0, 5, 0, 170, 9]
      c3HookTrue [] ⟨[8, 0, 5, 0, 170, 9], false, false⟩ ⟨0, []⟩ ⟨0, []⟩
      [8, 0, 5, 0, 170] (by decide) (by decide) (by decide) (by decide) (by decide)⟩

/-! ## C1: parse failure aborts the chain and forwards the current buffer -/

/-- A raw hook on opcode `5` that replaces the buffer with
`[8, 0, 5, 0, 222]`. -/
def c1HookRaw : Hook :=
  mkHook 0 (.code 5) nullFilter 0 .raw (cbRawReplace [8, 0, 5, 0, 222])

/-- A parsed hook on opcode `5` (its parse will fail under
`envParseFail`). -/
def c1HookParsed : Hook := mkHook 1 (.code 5) nullFilter 0 (.version 1) cbRetFalse

/-- Counterexample to C1 at a concrete input: an earlier raw hook in
the same call replaces the buffer `[8,0,5,0,170,9]` with
`[8,0,5,0,222]`; the next (parsed) hook's codec parse throws, and
`handle` forwards the replaced buffer, not the original bytes as
received. -/
theorem c1_counterexample :
    (handle envParseFail (mkDState [(.code 5, [⟨0, [c1HookRaw, c1HookParsed]⟩])])
      [8, 0, 5, 0, 170, 9] false false).2 = .ok (.bytes [8, 0, 5, 0, 222]) ∧
    ([8, 0, 5, 0, 222] : Bytes) ≠ [8, 0, 5, 0, 170, 9] := by
  refine ⟨?_, by decide⟩
  rw [handle_single envParseFail _ _ false false 5 0 [c1HookRaw, c1HookParsed]
    (by decide) (by decide) rfl]
  rfl

/-- C1 (amended).  When a parsed (non-raw) hook's codec parse throws,
the hook loop stops at that hook — no hook after it runs, whatever the
rest of the chain is — and yields the current working buffer (which an
earlier raw hook of the same call may have replaced or mutated) as the
forwarded bytes; the failure is logged in the source. -/
theorem c1_parse_failure_aborts (env : Env) (pv code : Nat)
    (incoming fake : Bool) (copy : Bytes) (pre post : List Hook) (h : Hook)
    (s₀ s₁ : LoopSt)
    (hpre : runHooks env pv code incoming fake copy pre s₀ = .done s₁)
    (hraw : h.definitionVersion ≠ .raw)
    (hf : filterMatch h.filter fake incoming s₁.modified s₁.silenced = true)
    (hp : env.parse pv code h.definitionVersion s₁.data = none) :
    runHooks env pv code incoming fake copy (pre ++ h :: post) s₀ =
      .abortParse s₁.data := by
  rw [runHooks_append, hpre]
  simp only [runHooks, if_pos hf, if_neg hraw]
  unfold stepEvent
  rw [hp]

/-- Witness for C1 (amended) at a concrete input. -/
theorem c1_witness :
    (runHooks envParseFail 1 5 false false [8, 0, 5, 0, 170, 9] [c1HookRaw]
        ⟨[8, 0, 5, 0, 170, 9], false, false⟩ =
        .done ⟨[8, 0, 5, 0, 222], true, false⟩ ∧
      filterMatch c1HookParsed.filter false false true false = true ∧
      envParseFail.parse 1 5 c1HookParsed.definitionVersion [8, 0, 5, 0, 222] = none) ∧
    runHooks envParseFail 1 5 false false [8, 0, 5, 0, 170, 9]
        ([c1HookRaw] ++ c1HookParsed :: [])
        ⟨[8, 0, 5, 0, 170, 9], false, false⟩ =
      .abortParse [8, 0, 5, 0, 222] :=
  ⟨⟨by decide, by decide, by decide⟩,
    c1_parse_failure_aborts envParseFail 1 5 false false [8, 0, 5, 0, 170, 9]
      [c1HookRaw] [] c1HookParsed ⟨[8, 0, 5, 0, 170, 9], false, false⟩
      ⟨[8, 0, 5, 0, 222], true, false⟩ (by decide) (by decide) (by decide) (by decide)⟩

/-! ## C4: silencing, un-silencing, and the default filter -/

/-- A parsed hook with the default filter that silences opcode `5`. -/
def c4HookFalse : Hook := mkHook 0 (.code 5) defaultFilter 0 (.version 1) cbRetFalse

/-- A parsed hook with the default filter that returns `true` on
opcode `5`. -/
def c4HookTrue : Hook := mkHook 1 (.code 5) defaultFilter 0 (.version 1) cbRetTrue

/-- Counterexample to C4 at a concrete input: an earlier hook returns
`false` and a later hook registered with the default filter
(`silenced: false`) returns `true`; the later hook is skipped by the
silenced-filter check, so `handle` yields `SILENCED` instead of
forwarding the message as the claim states. -/
theorem c4_counterexample :
    (handle envParseOk (mkDState [(.code 5, [⟨0, [c4HookFalse, c4HookTrue]⟩])])
      [8, 0, 5, 0, 170, 9] false false).2 = .ok .silencedOut ∧
    c4HookTrue.filter = defaultFilter := by
  refine ⟨?_, by decide⟩
  rw [handle_single envParseOk _ _ false false 5 0 [c4HookFalse, c4HookTrue]
    (by decide) (by decide) rfl]
  rfl

/-- C4 (amended).  A hook returning `false` sets the `silenced` state;
the silenced state after the last hook determines `handle`'s return
value, and a later hook returning `true` clears the silencing only
when that hook's filter matches the silenced state (its
`filter.silenced` is null or `true`; the default filter's
`silenced: false` makes the hook skip silenced messages).  For a pair
of registered hooks where the earlier returns `false` and the later —
whose filter accepts the silenced message — returns `true`, the
message is forwarded. -/
theorem c4_silencing_final_state (env : Env) (s : DState) (data : Bytes)
    (incoming fake : Bool) (c : Nat) (o : Int) (hF hT : Hook)
    (evF evF' evT evT' : Event)
    (hreg : s.hooks = [(.code c, [⟨o, [hF, hT]⟩])])
    (hc : readUInt16LE data 2 = c)
    (hnv : ¬(c = 19900 ∧ s.protocolVersion = 0))
    (hFraw : hF.definitionVersion ≠ .raw)
    (hTraw : hT.definitionVersion ≠ .raw)
    (hFf : filterMatch hF.filter fake incoming false false = true)
    (hFp : env.parse s.protocolVersion c hF.definitionVersion data = some evF)
    (hFcb : hF.callback.onEvent evF ⟨fake, incoming, false, false⟩ = (evF', .retFalse))
    (hTf : filterMatch hT.filter fake incoming false true = true)
    (hTp : env.parse s.protocolVersion c hT.definitionVersion data = some evT)
    (hTcb : hT.callback.onEvent evT ⟨fake, incoming, false, true⟩ = (evT', .retTrue)) :
    handle env s data incoming fake =
      (s, .ok (.bytes ((env.write s.protocolVersion c hT.definitionVersion evT').getD data))) := by
  rw [handle_single env s data incoming fake c o [hF, hT] hc hnv hreg]
  simp only [runHooks, if_pos hFf]
  rw [if_neg hFraw]
  unfold stepEvent
  rw [hFp]
  simp only [hFcb]
  simp only [runHooks, if_pos hTf]
  rw [if_neg hTraw]
  rw [hTp]
  simp only [hTcb]
  simp [runHooks]

/-- Witness for C4 (amended) at a concrete input: the un-silencing hook
carries a null `silenced` filter. -/
theorem c4_witness :
    (filterMatch c4HookFalse.filter false false false false = true ∧
      filterMatch (mkHook 1 (.code 5) nullFilter 0 (.version 1) cbRetTrue).filter
        false false false true = true) ∧
    handle envParseOk
        (mkDState [(.code 5,
          [⟨0, [c4HookFalse, mkHook 1 (.code 5) nullFilter 0 (.version 1) cbRetTrue]⟩])])
        [8, 0, 5, 0, 170, 9] false false =
      (mkDState [(.code 5,
          [⟨0, [c4HookFalse, mkHook 1 (.code 5) nullFilter 0 (.version 1) cbRetTrue]⟩])],
        .ok (.bytes [8, 0, 5, 0, 170])) :=
  ⟨⟨by decide, by decide⟩, by
    have := c4_silencing_final_state envParseOk
      (mkDState [(.code 5,
        [⟨0, [c4HookFalse, mkHook 1 (.code 5) nullFilter 0 (.version 1) cbRetTrue]⟩])])
      [8, 0, 5, 0, 170, 9] false false 5 0 c4HookFalse
      (mkHook 1 (.code 5) nullFilter 0 (.version 1) cbRetTrue)
      ⟨0, []⟩ ⟨0, []⟩ ⟨0, []⟩ ⟨0, []⟩ rfl (by decide) (by decide) (by decide)
      (by decide) (by decide) (by decide) (by decide) (by decide) (by decide)
      (by decide)
    simpa using this⟩

/-! ## C2: the merged iteration order -/

/-- The invariant `addHook` maintains on each registry group list:
groups strictly sorted ascending by `order` (binary search relies on
this), and every hook stored in a group carrying the group's `order`. -/
def wfOrdering (l : List HookGroup) : Prop :=
  l.Pairwise (fun a b => a.order < b.order) ∧ ∀ g ∈ l, ∀ h ∈ g.hooks, h.order = g.order

instance (l : List HookGroup) : Decidable (wfOrdering l) := by
  unfold wfOrdering; infer_instance

/-- The hooks of the (unique, under `wfOrdering`) group of order `o`,
or `[]` when there is none. -/
def findGroupHooks (l : List HookGroup) (o : Int) : List Hook :=
  ((l.find? (fun g => g.order = o)).map (·.hooks)).getD []

theorem findGroupHooks_eq_nil {l : List HookGroup} {o : Int}
    (h : ∀ grp ∈ l, grp.order ≠ o) : findGroupHooks l o = [] := by
  unfold findGroupHooks
  rw [List.find?_eq_none.2 (by simpa using h)]
  rfl

theorem wfOrdering_cons {g : HookGroup} {gs : List HookGroup}
    (h : wfOrdering (g :: gs)) :
    wfOrdering gs ∧ (∀ grp ∈ gs, g.order < grp.order) ∧
      ∀ x ∈ g.hooks, x.order = g.order := by
  obtain ⟨hp, hh⟩ := h
  rw [List.pairwise_cons] at hp
  exact ⟨⟨hp.2, fun grp hgrp => hh grp (by simp [hgrp])⟩, hp.1,
    hh g (by simp)⟩

/-- Membership in the merged iteration: exactly the hooks stored in
either group list. -/
theorem mem_iterateHooks : ∀ (g c : List HookGroup) (a : Hook),
    a ∈ iterateHooks g c ↔ (∃ grp ∈ g, a ∈ grp.hooks) ∨ ∃ grp ∈ c, a ∈ grp.hooks
  | [], [] => by simp [iterateHooks]
  | g :: gs, [] => by
    intro a
    have ih := mem_iterateHooks gs [] a
    simp only [iterateHooks, List.mem_append, ih]
    simp only [List.mem_cons, List.not_mem_nil]
    constructor
    · rintro (h | (⟨grp, hm, hh⟩ | ⟨grp, hm, _⟩))
      · exact Or.inl ⟨g, Or.inl rfl, h⟩
      · exact Or.inl ⟨grp, Or.inr hm, hh⟩
      · exact absurd hm (by simp)
    · rintro (⟨grp, (rfl | hm), hh⟩ | ⟨grp, hm, _⟩)
      · exact Or.inl hh
      · exact Or.inr (Or.inl ⟨grp, hm, hh⟩)
      · exact absurd hm (by simp)
  | [], c :: cs => by
    intro a
    have ih := mem_iterateHooks [] cs a
    simp only [iterateHooks, List.mem_append, ih]
    simp only [List.mem_cons, List.not_mem_nil]
    constructor
    · rintro (h | (⟨grp, hm, _⟩ | ⟨grp, hm, hh⟩))
      · exact Or.inr ⟨c, Or.inl rfl, h⟩
      · exact absurd hm (by simp)
      · exact Or.inr ⟨grp, Or.inr hm, hh⟩
    · rintro (⟨grp, hm, _⟩ | ⟨grp, (rfl | hm), hh⟩)
      · exact absurd hm (by simp)
      · exact Or.inl hh
      · exact Or.inr (Or.inr ⟨grp, hm, hh⟩)
  | g :: gs, c :: cs => by
    intro a
    have ih₁ := mem_iterateHooks gs (c :: cs) a
    have ih₂ := mem_iterateHooks (g :: gs) cs a
    simp only [iterateHooks]
    by_cases hle : g.order ≤ c.order
    · rw [if_pos hle]
      simp only [List.mem_append, ih₁, List.mem_cons]
      constructor
      · rintro (h | (⟨grp, hm, hh⟩ | h))
        · exact Or.inl ⟨g, Or.inl rfl, h⟩
        · exact Or.inl ⟨grp, Or.inr hm, hh⟩
        · exact Or.inr h
      · rintro (⟨grp, (rfl | hm), hh⟩ | h)
        · exact Or.inl hh
        · exact Or.inr (Or.inl ⟨grp, hm, hh⟩)
        · exact Or.inr (Or.inr h)
    · rw [if_neg hle]
      simp only [List.mem_append, ih₂, List.mem_cons]
      constructor
      · rintro (h | (h | ⟨grp, hm, hh⟩))
        · exact Or.inr ⟨c, Or.inl rfl, h⟩
        · exact Or.inl h
        · exact Or.inr ⟨grp, Or.inr hm, hh⟩
      · rintro (h | ⟨grp, (rfl | hm), hh⟩)
        · exact Or.inr (Or.inl h)
        · exact Or.inl hh
        · exact Or.inr (Or.inr ⟨grp, hm, hh⟩)
termination_by g c => g.length + c.length

/-- Hooks of a single group (all carrying the same `order`) are
pairwise related by `≤` on `order`. -/
theorem pairwise_le_of_const_order {l : List Hook} {o : Int}
    (h : ∀ x ∈ l, x.order = o) :
    l.Pairwise (fun a b => a.order ≤ b.order) := by
  induction l with
  | nil => simp
  | cons a t ih =>
    rw [List.pairwise_cons]
    exact ⟨fun b hb => by rw [h a (by simp), h b (by simp [hb])],
      ih (fun x hx => h x (by simp [hx]))⟩

/-- Every hook yielded by the merged iteration of well-formed group
lists has order at least the minimum available group order. -/
theorem iterateHooks_order_lower {g c : List HookGroup} {a : Hook} {o : Int}
    (hg : wfOrdering g) (hc : wfOrdering c)
    (hbg : ∀ grp ∈ g, o ≤ grp.order) (hbc : ∀ grp ∈ c, o ≤ grp.order)
    (ha : a ∈ iterateHooks g c) : o ≤ a.order := by
  rcases (mem_iterateHooks g c a).1 ha with ⟨grp, hm, hh⟩ | ⟨grp, hm, hh⟩
  · rw [hg.2 grp hm a hh]; exact hbg grp hm
  · rw [hc.2 grp hm a hh]; exact hbc grp hm

/-- The merged iteration over well-formed group lists is sorted by
non-decreasing hook `order`. -/
theorem iterateHooks_sorted : ∀ (g c : List HookGroup), wfOrdering g → wfOrdering c →
    (iterateHooks g c).Pairwise (fun a b => a.order ≤ b.order)
  | [], [] => by intro _ _; simp [iterateHooks]
  | g :: gs, [] => by
    intro hg hc
    obtain ⟨hgs, hlt, hord⟩ := wfOrdering_cons hg
    have ih := iterateHooks_sorted gs [] hgs hc
    simp only [iterateHooks]
    rw [List.pairwise_append]
    refine ⟨?_, ih, ?_⟩
    · exact pairwise_le_of_const_order hord
    · intro a hag b hb
      rw [hord a hag]
      exact iterateHooks_order_lower hgs hc (fun grp hm => le_of_lt (hlt grp hm))
        (by simp) hb
  | [], c :: cs => by
    intro hg hc
    obtain ⟨hcs, hlt, hord⟩ := wfOrdering_cons hc
    have ih := iterateHooks_sorted [] cs hg hcs
    simp only [iterateHooks]
    rw [List.pairwise_append]
    refine ⟨?_, ih, ?_⟩
    · exact pairwise_le_of_const_order hord
    · intro a hag b hb
      rw [hord a hag]
      exact iterateHooks_order_lower hg hcs (by simp)
        (fun grp hm => le_of_lt (hlt grp hm)) hb
  | g :: gs, c :: cs => by
    intro hg hc
    obtain ⟨hgs, hltg, hordg⟩ := wfOrdering_cons hg
    obtain ⟨hcs, hltc, hordc⟩ := wfOrdering_cons hc
    simp only [iterateHooks]
    by_cases hle : g.order ≤ c.order
    · rw [if_pos hle]
      have ih := iterateHooks_sorted gs (c :: cs) hgs hc
      rw [List.pairwise_append]
      refine ⟨?_, ih, ?_⟩
      · exact pairwise_le_of_const_order hordg
      · intro a hag b hb
        rw [hordg a hag]
        refine iterateHooks_order_lower hgs hc
          (fun grp hm => le_of_lt (hltg grp hm)) ?_ hb
        intro grp hm
        rcases List.mem_cons.1 hm with rfl | hm
        · exact hle
        · exact le_of_lt (lt_of_le_of_lt hle (hltc grp hm))
    · rw [if_neg hle]
      push_neg at hle
      have ih := iterateHooks_sorted (g :: gs) cs hg hcs
      rw [List.pairwise_append]
      refine ⟨?_, ih, ?_⟩
      · exact pairwise_le_of_const_order hordc
      · intro a hag b hb
        rw [hordc a hag]
        refine iterateHooks_order_lower hg hcs ?_
          (fun grp hm => le_of_lt (hltc grp hm)) hb
        intro grp hm
        rcases List.mem_cons.1 hm with rfl | hm
        · exact le_of_lt hle
        · exact le_of_lt (lt_trans hle (hltg grp hm))
termination_by g c => g.length + c.length


theorem findGroupHooks_nil (o : Int) : findGroupHooks [] o = [] := by
  simp [findGroupHooks]

theorem findGroupHooks_cons_pos {g : HookGroup} {gs : List HookGroup} {o : Int}
    (h : g.order = o) : findGroupHooks (g :: gs) o = g.hooks := by
  unfold findGroupHooks
  rw [List.find?_cons_of_pos _ (by simpa using h)]
  rfl

theorem findGroupHooks_cons_neg {g : HookGroup} {gs : List HookGroup} {o : Int}
    (h : g.order ≠ o) : findGroupHooks (g :: gs) o = findGroupHooks gs o := by
  unfold findGroupHooks
  rw [List.find?_cons_of_neg _ (by simpa using h)]

/-- Filtering the merged iteration at one order value yields the global
group's hooks followed by the code-specific group's hooks (in their
stored, i.e. registration, order): globals precede code-specific hooks
at equal `order`. -/
theorem iterateHooks_filter_order : ∀ (g c : List HookGroup), wfOrdering g →
    wfOrdering c → ∀ o : Int,
    (iterateHooks g c).filter (fun h => h.order = o) =
      findGroupHooks g o ++ findGroupHooks c o
  | [], [] => by intro _ _ o; simp [iterateHooks, findGroupHooks]
  | g :: gs, [] => by
    intro hg hc o
    obtain ⟨hgs, hlt, hord⟩ := wfOrdering_cons hg
    have ih := iterateHooks_filter_order gs [] hgs hc o
    simp only [iterateHooks, List.filter_append, ih, findGroupHooks_nil,
      List.append_nil]
    by_cases ho : g.order = o
    · rw [List.filter_eq_self.2 (by intro a ha; simpa [hord a ha] using ho),
        findGroupHooks_eq_nil (fun grp hm => by have := hlt grp hm; omega),
        findGroupHooks_cons_pos ho, List.append_nil]
    · rw [List.filter_eq_nil_iff.2 (by intro a ha; simpa [hord a ha] using ho),
        findGroupHooks_cons_neg ho, List.nil_append]
  | [], c :: cs => by
    intro hg hc o
    obtain ⟨hcs, hlt, hord⟩ := wfOrdering_cons hc
    have ih := iterateHooks_filter_order [] cs hg hcs o
    simp only [iterateHooks, List.filter_append, ih, findGroupHooks_nil,
      List.nil_append]
    by_cases ho : c.order = o
    · rw [List.filter_eq_self.2 (by intro a ha; simpa [hord a ha] using ho),
        findGroupHooks_eq_nil (fun grp hm => by have := hlt grp hm; omega),
        findGroupHooks_cons_pos ho, List.append_nil]
    · rw [List.filter_eq_nil_iff.2 (by intro a ha; simpa [hord a ha] using ho),
        findGroupHooks_cons_neg ho, List.nil_append]
  | g :: gs, c :: cs => by
    intro hg hc o
    obtain ⟨hgs, hltg, hordg⟩ := wfOrdering_cons hg
    obtain ⟨hcs, hltc, hordc⟩ := wfOrdering_cons hc
    simp only [iterateHooks]
    by_cases hle : g.order ≤ c.order
    · rw [if_pos hle]
      have ih := iterateHooks_filter_order gs (c :: cs) hgs hc o
      simp only [List.filter_append, ih]
      by_cases ho : g.order = o
      · rw [List.filter_eq_self.2 (by intro a ha; simpa [hordg a ha] using ho),
          findGroupHooks_eq_nil (fun grp hm => by have := hltg grp hm; omega),
          findGroupHooks_cons_pos ho, List.nil_append]
      · rw [List.filter_eq_nil_iff.2 (by intro a ha; simpa [hordg a ha] using ho),
          findGroupHooks_cons_neg ho, List.nil_append]
    · rw [if_neg hle]
      push_neg at hle
      have ih := iterateHooks_filter_order (g :: gs) cs hg hcs o
      simp only [List.filter_append, ih]
      by_cases ho : c.order = o
      · rw [List.filter_eq_self.2 (by intro a ha; simpa [hordc a ha] using ho),
          findGroupHooks_cons_pos ho]
        have hgnil : findGroupHooks (g :: gs) o = [] := by
          refine findGroupHooks_eq_nil ?_
          intro grp hm
          rcases List.mem_cons.1 hm with rfl | hm
          · omega
          · have := hltg grp hm; omega
        have hcnil : findGroupHooks cs o = [] :=
          findGroupHooks_eq_nil (fun grp hm => by have := hltc grp hm; omega)
        rw [hgnil, hcnil]
        simp
      · rw [List.filter_eq_nil_iff.2 (by intro a ha; simpa [hordc a ha] using ho),
          findGroupHooks_cons_neg ho, List.nil_append]
termination_by g c => g.length + c.length

/-- Group orders present after an ordered insertion: the inserted
hook's order or an order already present. -/
theorem insertHook_orders (h : Hook) : ∀ (l : List HookGroup),
    ∀ grp ∈ insertHook h l, grp.order = h.order ∨ ∃ grp₀ ∈ l, grp.order = grp₀.order := by
  intro l
  induction l with
  | nil =>
    intro grp hm
    unfold insertHook at hm
    rw [List.mem_singleton] at hm
    subst hm
    simp
  | cons g gs ih =>
    intro grp hm
    unfold insertHook at hm
    by_cases h1 : h.order < g.order
    · rw [if_pos h1] at hm
      rcases List.mem_cons.1 hm with rfl | hm
      · simp
      · exact Or.inr ⟨grp, hm, rfl⟩
    · rw [if_neg h1] at hm
      by_cases h2 : h.order = g.order
      · rw [if_pos h2] at hm
        rcases List.mem_cons.1 hm with rfl | hm
        · exact Or.inl h2.symm
        · exact Or.inr ⟨grp, by simp [hm], rfl⟩
      · rw [if_neg h2] at hm
        rcases List.mem_cons.1 hm with rfl | hm
        · exact Or.inr ⟨grp, by simp, rfl⟩
        · rcases ih grp hm with h3 | ⟨grp₀, hm₀, h3⟩
          · exact Or.inl h3
          · exact Or.inr ⟨grp₀, by simp [hm₀], h3⟩

/-- `addHook`'s ordered insertion preserves the registry invariant and
appends the hook at the end of its order group, preserving registration
order within the group. -/
theorem insertHook_wf_append (h : Hook) : ∀ (l : List HookGroup), wfOrdering l →
    wfOrdering (insertHook h l) ∧
      findGroupHooks (insertHook h l) h.order = findGroupHooks l h.order ++ [h] := by
  intro l
  induction l with
  | nil =>
    intro _
    refine ⟨⟨by unfold insertHook; simp, ?_⟩, ?_⟩
    · intro g hg x hx
      unfold insertHook at hg
      rw [List.mem_singleton] at hg
      subst hg
      simp only [List.mem_singleton] at hx
      simp [hx]
    · show findGroupHooks [⟨h.order, [h]⟩] h.order = findGroupHooks [] h.order ++ [h]
      rw [findGroupHooks_cons_pos rfl, findGroupHooks_nil, List.nil_append]
  | cons g gs ih =>
    intro hwf
    obtain ⟨hgs, hlt, hord⟩ := wfOrdering_cons hwf
    obtain ⟨ihwf, ihfind⟩ := ih hgs
    unfold insertHook
    by_cases h1 : h.order < g.order
    · rw [if_pos h1]
      constructor
      · constructor
        · rw [List.pairwise_cons]
          refine ⟨?_, hwf.1⟩
          intro grp hm
          rcases List.mem_cons.1 hm with rfl | hm
          · exact h1
          · exact lt_trans h1 (hlt grp hm)
        · intro grp hm x hx
          rcases List.mem_cons.1 hm with rfl | hm
          · simp only [List.mem_singleton] at hx; simp [hx]
          · exact hwf.2 grp hm x hx
      · rw [findGroupHooks_cons_pos rfl]
        have hnil : findGroupHooks (g :: gs) h.order = [] := by
          refine findGroupHooks_eq_nil ?_
          intro grp hm
          rcases List.mem_cons.1 hm with rfl | hm
          · omega
          · have := hlt grp hm; omega
        rw [hnil, List.nil_append]
    · rw [if_neg h1]
      by_cases h2 : h.order = g.order
      · rw [if_pos h2]
        constructor
        · constructor
          · rw [List.pairwise_cons]
            exact ⟨fun grp hm => hlt grp hm, hgs.1⟩
          · intro grp hm x hx
            rcases List.mem_cons.1 hm with rfl | hm
            · simp only [List.mem_append, List.mem_singleton] at hx
              rcases hx with hx | rfl
              · exact hord x hx
              · exact h2
            · exact hwf.2 grp (by simp [hm]) x hx
        · rw [show findGroupHooks ({ order := g.order, hooks := g.hooks ++ [h] } :: gs) h.order
              = g.hooks ++ [h] from findGroupHooks_cons_pos h2.symm,
            show findGroupHooks (g :: gs) h.order = g.hooks from
              findGroupHooks_cons_pos h2.symm]
      · rw [if_neg h2]
        have h3 : g.order < h.order := by omega
        constructor
        · constructor
          · rw [List.pairwise_cons]
            refine ⟨?_, ihwf.1⟩
            intro grp hm
            rcases insertHook_orders h gs grp hm with h4 | ⟨grp₀, hm₀, h4⟩
            · omega
            · rw [h4]; exact hlt grp₀ hm₀
          · intro grp hm x hx
            rcases List.mem_cons.1 hm with rfl | hm
            · exact hord x hx
            · exact ihwf.2 grp hm x hx
        · rw [findGroupHooks_cons_neg (by omega),
            findGroupHooks_cons_neg (show g.order ≠ h.order by omega)]
          exact ihfind



/-- C2.  For every registry group list satisfying the invariant that
`addHook` maintains (strictly order-sorted groups whose hooks carry the
group order — and `insertHook` preserves that invariant, third
conjunct), the merged iteration over the `'*'` list and the
code-specific list yields hooks in non-decreasing `order`; at each
order value the hooks are exactly the global group's hooks followed by
the code-specific group's hooks, each group in its stored registration
order (to which `insertHook` appends). -/
theorem c2_merged_iteration_order (g c : List HookGroup)
    (hg : wfOrdering g) (hc : wfOrdering c) :
    (iterateHooks g c).Pairwise (fun a b => a.order ≤ b.order) ∧
    (∀ o : Int, (iterateHooks g c).filter (fun h => h.order = o) =
      findGroupHooks g o ++ findGroupHooks c o) ∧
    (∀ (h : Hook) (l : List HookGroup), wfOrdering l →
      wfOrdering (insertHook h l) ∧
      findGroupHooks (insertHook h l) h.order = findGroupHooks l h.order ++ [h]) :=
  ⟨iterateHooks_sorted g c hg hc, iterateHooks_filter_order g c hg hc,
    fun h l hl => insertHook_wf_append h l hl⟩

/-- Global groups at orders 5 and 10 (scenario S4 of the spec). -/
def c2GlobalGroups : List HookGroup :=
  [⟨5, [mkHook 0 .star nullFilter 5 .raw noopCallback]⟩,
   ⟨10, [mkHook 1 .star nullFilter 10 .raw noopCallback]⟩]

/-- Code-specific groups at orders 5 and 10 (scenario S4 of the spec). -/
def c2CodeGroups : List HookGroup :=
  [⟨5, [mkHook 2 (.code 7) nullFilter 5 .raw noopCallback]⟩,
   ⟨10, [mkHook 3 (.code 7) nullFilter 10 .raw noopCallback]⟩]

/-- Witness for C2 at a concrete registry (S4): the merged iteration is
order-sorted, at order 5 the global hook precedes the code-specific
one, and the overall firing order is `G5, C5, G10, C10`. -/
theorem c2_witness :
    (wfOrdering c2GlobalGroups ∧ wfOrdering c2CodeGroups) ∧
    (iterateHooks c2GlobalGroups c2CodeGroups).Pairwise
      (fun a b => a.order ≤ b.order) ∧
    (iterateHooks c2GlobalGroups c2CodeGroups).filter (fun h => h.order = 5) =
      findGroupHooks c2GlobalGroups 5 ++ findGroupHooks c2CodeGroups 5 ∧
    (iterateHooks c2GlobalGroups c2CodeGroups).map (·.id) = [0, 2, 1, 3] :=
  ⟨⟨by decide, by decide⟩,
    (c2_merged_iteration_order c2GlobalGroups c2CodeGroups (by decide) (by decide)).1,
    (c2_merged_iteration_order c2GlobalGroups c2CodeGroups (by decide) (by decide)).2.1 5,
    by simp [iterateHooks, c2GlobalGroups, c2CodeGroups, mkHook]⟩



/-! ## C5: queued hooks and the protocol-version drain -/

theorem find?_key_map_self {k : RegKey} {v : List HookGroup} :
    ∀ r : Registry, (∃ e ∈ r, e.1 = k) →
      List.find? (fun e => e.1 = k) (r.map (fun e => if e.1 = k then (k, v) else e)) =
        some (k, v) := by
  intro r
  induction r with
  | nil => rintro ⟨e, he, -⟩; exact absurd he (by simp)
  | cons a as ih =>
    rintro ⟨e, he, hek⟩
    by_cases hak : a.1 = k
    · simp only [List.map_cons, if_pos hak]
      rw [List.find?_cons_of_pos _ (by simp)]
    · simp only [List.map_cons, if_neg hak]
      rw [List.find?_cons_of_neg _ (by simpa using hak)]
      refine ih ⟨e, ?_, hek⟩
      rcases List.mem_cons.1 he with rfl | he
      · exact absurd hek hak
      · exact he

theorem find?_key_map_ne {k k' : RegKey} {v : List HookGroup} (hk : k' ≠ k) :
    ∀ r : Registry,
      List.find? (fun e => e.1 = k') (r.map (fun e => if e.1 = k then (k, v) else e)) =
        List.find? (fun e => e.1 = k') r := by
  intro r
  induction r with
  | nil => simp
  | cons a as ih =>
    by_cases hak : a.1 = k
    · simp only [List.map_cons, if_pos hak]
      rw [List.find?_cons_of_neg _ (by simpa using fun h => hk h.symm),
        List.find?_cons_of_neg _ (by simpa using fun h => hk (h.symm.trans hak))]
      exact ih
    · simp only [List.map_cons, if_neg hak]
      by_cases hak' : a.1 = k'
      · rw [List.find?_cons_of_pos _ (by simpa using hak'),
          List.find?_cons_of_pos _ (by simpa using hak')]
      · rw [List.find?_cons_of_neg _ (by simpa using hak'),
          List.find?_cons_of_neg _ (by simpa using hak')]
        exact ih

theorem find?_key_append_self {k : RegKey} {v : List HookGroup} :
    ∀ r : Registry, (∀ e ∈ r, e.1 ≠ k) →
      List.find? (fun e => e.1 = k) (r ++ [(k, v)]) = some (k, v) := by
  intro r
  induction r with
  | nil =>
    intro _
    rw [List.nil_append, List.find?_cons_of_pos _ (by simp)]
  | cons a as ih =>
    intro hp
    rw [List.cons_append, List.find?_cons_of_neg _ (by simpa using hp a (by simp))]
    exact ih (fun e he => hp e (by simp [he]))

theorem find?_key_append_ne {k k' : RegKey} {v : List HookGroup} (hk : k' ≠ k) :
    ∀ r : Registry,
      List.find? (fun e => e.1 = k') (r ++ [(k, v)]) =
        List.find? (fun e => e.1 = k') r := by
  intro r
  induction r with
  | nil =>
    rw [List.nil_append, List.find?_cons_of_neg _ (by simpa using fun h => hk h.symm)]
  | cons a as ih =>
    rw [List.cons_append]
    by_cases hak' : a.1 = k'
    · rw [List.find?_cons_of_pos _ (by simpa using hak'),
        List.find?_cons_of_pos _ (by simpa using hak')]
    · rw [List.find?_cons_of_neg _ (by simpa using hak'),
        List.find?_cons_of_neg _ (by simpa using hak')]
      exact ih

theorem registryGet_registrySet_self (r : Registry) (k : RegKey)
    (v : List HookGroup) : registryGet (registrySet r k v) k = some v := by
  unfold registryGet registrySet
  by_cases hp : r.any (fun e => e.1 = k)
  · rw [if_pos hp]
    simp only [List.any_eq_true, decide_eq_true_eq] at hp
    rw [find?_key_map_self r hp]
    rfl
  · rw [if_neg hp]
    simp only [List.any_eq_true, decide_eq_true_eq] at hp
    push_neg at hp
    rw [find?_key_append_self r hp]
    rfl

theorem registryGet_registrySet_ne (r : Registry) (k k' : RegKey)
    (v : List HookGroup) (hk : k' ≠ k) :
    registryGet (registrySet r k v) k' = registryGet r k' := by
  unfold registryGet registrySet
  by_cases hp : r.any (fun e => e.1 = k)
  · rw [if_pos hp, find?_key_map_ne hk r]
  · rw [if_neg hp, find?_key_append_ne hk r]

theorem mem_registrySet {r : Registry} {k : RegKey} {v : List HookGroup}
    {e : RegKey × List HookGroup} (he : e ∈ registrySet r k v) :
    e.2 = v ∨ e ∈ r := by
  unfold registrySet at he
  by_cases hp : r.any (fun x => x.1 = k)
  · rw [if_pos hp] at he
    obtain ⟨a, ha, hae⟩ := List.mem_map.1 he
    by_cases hak : a.1 = k
    · rw [if_pos (by simpa using hak)] at hae
      exact Or.inl (by rw [← hae])
    · rw [if_neg (by simpa using hak)] at hae
      exact Or.inr (hae ▸ ha)
  · rw [if_neg hp] at he
    rcases List.mem_append.1 he with he | he
    · exact Or.inr he
    · rw [List.mem_singleton] at he
      exact Or.inl (by rw [he])

/-- The group list stored at any key of a registry whose entries all
satisfy the invariant is itself well-formed. -/
theorem wfOrdering_registryGet {r : Registry} (hr : ∀ e ∈ r, wfOrdering e.2)
    (k : RegKey) : wfOrdering ((registryGet r k).getD []) := by
  unfold registryGet
  rcases hf : r.find? (fun e => e.1 = k) with _ | e
  · rw [hf]
    exact ⟨by simp, by simp⟩
  · rw [hf]
    exact hr e (List.mem_of_find?_eq_some hf)

theorem addHook_get_self (s : DState) (h : Hook) :
    registryGet (addHook s h).hooks h.code =
      some (insertHook h ((registryGet s.hooks h.code).getD [])) :=
  registryGet_registrySet_self _ _ _

theorem addHook_get_ne (s : DState) (h : Hook) (k : RegKey) (hk : k ≠ h.code) :
    registryGet (addHook s h).hooks k = registryGet s.hooks k :=
  registryGet_registrySet_ne _ _ _ _ hk

theorem addHook_wf {s : DState} (hs : ∀ e ∈ s.hooks, wfOrdering e.2) (h : Hook) :
    ∀ e ∈ (addHook s h).hooks, wfOrdering e.2 := by
  intro e he
  rcases mem_registrySet he with hv | he
  · rw [hv]
    exact (insertHook_wf_append h _ (wfOrdering_registryGet hs h.code)).1
  · exact hs e he

/-- When the inserted hook has a different order, a group's hook list
is unchanged. -/
theorem insertHook_find_ne (h : Hook) (o : Int) (ho : o ≠ h.order) :
    ∀ l : List HookGroup, findGroupHooks (insertHook h l) o = findGroupHooks l o := by
  intro l
  induction l with
  | nil =>
    unfold insertHook
    rw [findGroupHooks_cons_neg
      (show (⟨h.order, [h]⟩ : HookGroup).order ≠ o from fun hh => ho hh.symm)]
  | cons g gs ih =>
    unfold insertHook
    by_cases h1 : h.order < g.order
    · rw [if_pos h1, findGroupHooks_cons_neg
        (show (⟨h.order, [h]⟩ : HookGroup).order ≠ o from fun hh => ho hh.symm)]
    · rw [if_neg h1]
      by_cases h2 : h.order = g.order
      · rw [if_pos h2]
        by_cases hgo : g.order = o
        · omega
        · rw [findGroupHooks_cons_neg
            (show ({ order := g.order, hooks := g.hooks ++ [h] } : HookGroup).order ≠ o from hgo),
            findGroupHooks_cons_neg hgo]
      · rw [if_neg h2]
        by_cases hgo : g.order = o
        · rw [show findGroupHooks (g :: insertHook h gs) o = g.hooks from
            findGroupHooks_cons_pos hgo,
            findGroupHooks_cons_pos hgo]
        · rw [findGroupHooks_cons_neg hgo, findGroupHooks_cons_neg hgo]
          exact ih



/-- The queue drain invoked by `setProtocolVersion`: when every queued
registration materializes successfully, the drain raises no exception,
leaves the queue of the state it runs on untouched, keeps the registry
invariant, and — for every registry key `k` and every order `o` — the
`(k, o)` group afterwards is the group before followed by exactly the
materialized hooks that target `(k, o)`, in queue order. -/
theorem drainQueued_spec (m : ProtocolMap) :
    ∀ (qs : List QueuedHook) (s : DState),
    s.protocolMap = some m →
    (∀ e ∈ s.hooks, wfOrdering e.2) →
    (∀ q ∈ qs, ∃ hq, createHook (some m) q.base q.name q.version q.opts q.cb = .ok hq) →
    (drainQueued s qs).2 = none ∧
    (drainQueued s qs).1.queuedHooks = s.queuedHooks ∧
    (∀ e ∈ (drainQueued s qs).1.hooks, wfOrdering e.2) ∧
    ∀ (k : RegKey) (o : Int),
      findGroupHooks ((registryGet (drainQueued s qs).1.hooks k).getD []) o =
        findGroupHooks ((registryGet s.hooks k).getD []) o ++
          (qs.filterMap
            (fun q => (createHook (some m) q.base q.name q.version q.opts q.cb).toOption)).filter
            (fun hq => hq.code = k ∧ hq.order = o) := by
  intro qs
  induction qs with
  | nil =>
    intro s hpm hwf _
    exact ⟨rfl, rfl, hwf, by intro k o; simp [drainQueued]⟩
  | cons q rest ih =>
    intro s hpm hwf hok
    obtain ⟨hq, hcr⟩ := hok q (by simp)
    have hstep : drainQueued s (q :: rest) = drainQueued (addHook s hq) rest := by
      have h0 : drainQueued s (q :: rest) =
          match createHook s.protocolMap q.base q.name q.version q.opts q.cb with
          | Except.error _ => (s, some ())
          | Except.ok h => drainQueued (addHook s h) rest := rfl
      rw [h0, hpm, hcr]
    have hpm' : (addHook s hq).protocolMap = some m := hpm
    have hwf' : ∀ e ∈ (addHook s hq).hooks, wfOrdering e.2 := addHook_wf hwf hq
    obtain ⟨ih1, ih2, ih3, ih4⟩ := ih (addHook s hq) hpm' hwf'
      (fun q' hq' => hok q' (by simp [hq']))
    rw [hstep]
    refine ⟨ih1, ih2, ih3, ?_⟩
    intro k o
    rw [ih4 k o]
    have hhead : findGroupHooks ((registryGet (addHook s hq).hooks k).getD []) o =
        findGroupHooks ((registryGet s.hooks k).getD []) o ++
          (if hq.code = k ∧ hq.order = o then [hq] else []) := by
      by_cases hk : k = hq.code
      · subst hk
        rw [addHook_get_self, Option.getD_some]
        by_cases ho : o = hq.order
        · subst ho
          rw [(insertHook_wf_append hq ((registryGet s.hooks hq.code).getD [])
            (wfOrdering_registryGet hwf hq.code)).2]
          rw [if_pos ⟨rfl, rfl⟩]
        · rw [insertHook_find_ne hq o ho,
            if_neg (fun hc => ho hc.2.symm), List.append_nil]
      · rw [addHook_get_ne s hq k hk,
          if_neg (fun hc => hk hc.1.symm), List.append_nil]
    rw [hhead, List.filterMap_cons, hcr]
    have htop : (Except.ok hq : Except Unit Hook).toOption = some hq := rfl
    rw [htop]
    simp only [List.filter_cons]
    by_cases hC : hq.code = k ∧ hq.order = o
    · rw [if_pos hC, if_pos (by simpa using hC), List.append_assoc,
        List.singleton_append]
    · rw [if_neg hC, if_neg (by simpa using hC), List.append_nil]

/-- C5 (amended).  First conjunct: while the protocol version is `0`,
each `hook(...)` call returns the (non-null) handle object, leaves the
registry untouched, and appends its request to the queue.  Second
conjunct: a later `setProtocolVersion(v)` materializes every queued
hook into the registry immediately and in the order the `hook(...)`
calls were made — provided the codec has an opcode map for `v`; an
unmapped `v ≠ 0` only logs an error and leaves the queue as it is (see
the counterexample).  For an arbitrary queue, "every hook, in
registration order" is stated per registry slot: every `(key, order)`
group afterwards is the group before followed by exactly the
materialized hooks targeting it, in queue order, and in particular
every materialized hook is present in its group. -/
theorem c5_queue_and_drain :
    (∀ (s : DState) (name : String) (v o cb : HookArg), s.protocolVersion = 0 →
      hook s name v o cb =
        ({ s with
            nextId := s.nextId + 2
            queuedHooks := s.queuedHooks ++
              [{ wrapperId := s.nextId + 1, base := ⟨s.nextId, none⟩
                 name := name, version := v, opts := o, cb := cb }] },
          .ok s.nextId)) ∧
    (∀ (env : Env) (s : DState) (v : Nat) (m : ProtocolMap),
      env.maps v = some m →
      (∀ e ∈ s.hooks, wfOrdering e.2) →
      (∀ q ∈ s.queuedHooks, ∃ hq,
        createHook (some m) q.base q.name q.version q.opts q.cb = .ok hq) →
      (setProtocolVersion env s v).2 = none ∧
      (setProtocolVersion env s v).1.queuedHooks = [] ∧
      (∀ (k : RegKey) (o : Int),
        findGroupHooks ((registryGet (setProtocolVersion env s v).1.hooks k).getD []) o =
          findGroupHooks ((registryGet s.hooks k).getD []) o ++
            (s.queuedHooks.filterMap
              (fun q => (createHook (some m) q.base q.name q.version q.opts q.cb).toOption)).filter
              (fun hq => hq.code = k ∧ hq.order = o)) ∧
      (∀ q ∈ s.queuedHooks, ∀ hq : Hook,
        createHook (some m) q.base q.name q.version q.opts q.cb = .ok hq →
        hq ∈ findGroupHooks
          ((registryGet (setProtocolVersion env s v).1.hooks hq.code).getD [])
          hq.order)) := by
  constructor
  · intro s name v o cb hpv
    unfold hook
    rw [if_pos hpv]
  · intro env s v m hm hwf hok
    have h0 : setProtocolVersion env s v =
        drainQueued
          { s with protocolVersion := v, protocolMap := env.maps v, queuedHooks := [] }
          s.queuedHooks := by
      unfold setProtocolVersion
      rw [hm]
    rw [h0]
    obtain ⟨d1, d2, -, d4⟩ := drainQueued_spec m s.queuedHooks
      { s with protocolVersion := v, protocolMap := env.maps v, queuedHooks := [] }
      (by exact hm) (by exact hwf) (by exact hok)
    refine ⟨d1, d2, d4, ?_⟩
    intro q hqmem hq hcr
    rw [d4 hq.code hq.order]
    refine List.mem_append_right _ (List.mem_filter.2 ⟨?_, by simp⟩)
    exact List.mem_filterMap.2 ⟨q, hqmem, by rw [hcr]; rfl⟩

/-- A queued registration for `S_LOGIN<1>` (handle object id 0, queue
wrapper object id 1). -/
def c5QueuedEntry : QueuedHook :=
  { wrapperId := 1, base := ⟨0, none⟩, name := "S_LOGIN"
    version := .num 1, opts := .obj {}, cb := .fn noopCallback }

/-- A dispatcher state with unknown protocol version and one queued
hook. -/
def c5QState : DState :=
  { hooks := [], queuedHooks := [c5QueuedEntry], protocolVersion := 0
    protocolMap := none, modules := [], nextId := 2 }

/-- Counterexample to C5 at a concrete input: `setProtocolVersion` with
the nonzero version `361000` that the codec does not map leaves the
queued hook in the queue and materializes nothing — the claim's
"for every call with v ≠ 0" fails for unmapped versions. -/
theorem c5_counterexample :
    (361000 : Nat) ≠ 0 ∧
    envParseOk.maps 361000 = none ∧
    (setProtocolVersion envParseOk c5QState 361000).1.queuedHooks.map
      (fun q => q.wrapperId) = [1] ∧
    (setProtocolVersion envParseOk c5QState 361000).1.hooks = [] := by
  exact ⟨by decide, rfl, rfl, rfl⟩

/-- The opcode map used by the C5 witness: version `361000` maps
`S_LOGIN` to opcode `100` and `C_CHAT` to opcode `200`. -/
def c5Map : ProtocolMap :=
  { name := fun n =>
      if n = "S_LOGIN" then some 100
      else if n = "C_CHAT" then some 200
      else none }

/-- A codec environment whose version `361000` is mapped. -/
def envMapped : Env := { envParseOk with maps := fun v => if v = 361000 then some c5Map else none }

/-- The hook `c5QueuedEntry` materializes into. -/
def c5CreatedHook : Hook :=
  { id := 0, code := .code 100, filter := defaultFilter, order := 0
    definitionVersion := .version 1, moduleName := none, callback := noopCallback }

/-- A second queued registration on a different opcode and order:
`C_CHAT<1>` at order `5` (handle object id 2, queue wrapper id 3). -/
def c5QueuedEntry2 : QueuedHook :=
  { wrapperId := 3, base := ⟨2, none⟩, name := "C_CHAT"
    version := .num 1, opts := .obj { order := some 5 }, cb := .fn noopCallback }

/-- The hook `c5QueuedEntry2` materializes into. -/
def c5CreatedHook2 : Hook :=
  { id := 2, code := .code 200, filter := defaultFilter, order := 5
    definitionVersion := .version 1, moduleName := none, callback := noopCallback }

/-- A dispatcher state with unknown protocol version and a
heterogeneous queue: two hooks on different opcodes and orders. -/
def c5QState2 : DState :=
  { hooks := [], queuedHooks := [c5QueuedEntry, c5QueuedEntry2]
    protocolVersion := 0, protocolMap := none, modules := [], nextId := 4 }

/-- Witness for C5 (amended) at concrete inputs: a `hook` call with
protocol version `0` queues (registry untouched, handle id returned),
and `setProtocolVersion 361000` under a mapped codec drains a
heterogeneous two-entry queue — different opcodes, different orders —
with each materialized hook landing appended in its own group. -/
theorem c5_witness :
    (c5QState2.protocolVersion = 0 ∧
      envMapped.maps 361000 = some c5Map ∧
      createHook (some c5Map) c5QueuedEntry.base c5QueuedEntry.name
        c5QueuedEntry.version c5QueuedEntry.opts c5QueuedEntry.cb = .ok c5CreatedHook ∧
      createHook (some c5Map) c5QueuedEntry2.base c5QueuedEntry2.name
        c5QueuedEntry2.version c5QueuedEntry2.opts c5QueuedEntry2.cb = .ok c5CreatedHook2) ∧
    hook c5QState "S_LOGIN" (.num 1) (.obj {}) (.fn noopCallback) =
      ({ c5QState with
          nextId := 4
          queuedHooks := c5QState.queuedHooks ++
            [{ wrapperId := 3, base := ⟨2, none⟩, name := "S_LOGIN"
               version := .num 1, opts := .obj {}, cb := .fn noopCallback }] },
        .ok 2) ∧
    (setProtocolVersion envMapped c5QState2 361000).2 = none ∧
    (setProtocolVersion envMapped c5QState2 361000).1.queuedHooks = [] ∧
    findGroupHooks
        ((registryGet (setProtocolVersion envMapped c5QState2 361000).1.hooks
          (.code 100)).getD []) 0 =
      findGroupHooks ((registryGet c5QState2.hooks (.code 100)).getD []) 0 ++
        (c5QState2.queuedHooks.filterMap
          (fun q => (createHook (some c5Map) q.base q.name q.version q.opts q.cb).toOption)).filter
          (fun hq => hq.code = .code 100 ∧ hq.order = 0) ∧
    findGroupHooks
        ((registryGet (setProtocolVersion envMapped c5QState2 361000).1.hooks
          (.code 200)).getD []) 5 =
      findGroupHooks ((registryGet c5QState2.hooks (.code 200)).getD []) 5 ++
        (c5QState2.queuedHooks.filterMap
          (fun q => (createHook (some c5Map) q.base q.name q.version q.opts q.cb).toOption)).filter
          (fun hq => hq.code = .code 200 ∧ hq.order = 5) ∧
    c5CreatedHook ∈ findGroupHooks
      ((registryGet (setProtocolVersion envMapped c5QState2 361000).1.hooks
        (.code 100)).getD []) 0 ∧
    c5CreatedHook2 ∈ findGroupHooks
      ((registryGet (setProtocolVersion envMapped c5QState2 361000).1.hooks
        (.code 200)).getD []) 5 := by
  have hA := c5_queue_and_drain.1 c5QState "S_LOGIN" (.num 1) (.obj {}) (.fn noopCallback) rfl
  have hok : ∀ q ∈ c5QState2.queuedHooks, ∃ hq,
      createHook (some c5Map) q.base q.name q.version q.opts q.cb = .ok hq := by
    intro q hq
    simp only [c5QState2, List.mem_cons, List.not_mem_nil, or_false] at hq
    rcases hq with rfl | rfl
    · exact ⟨c5CreatedHook, rfl⟩
    · exact ⟨c5CreatedHook2, rfl⟩
  have hB := c5_queue_and_drain.2 envMapped c5QState2 361000 c5Map
    rfl (by simp [c5QState2]) hok
  refine ⟨⟨rfl, rfl, rfl, rfl⟩, hA, hB.1, hB.2.1, hB.2.2.1 (.code 100) 0,
    hB.2.2.1 (.code 200) 5, ?_, ?_⟩
  · exact hB.2.2.2 c5QueuedEntry (by simp [c5QState2]) c5CreatedHook rfl
  · exact hB.2.2.2 c5QueuedEntry2 (by simp [c5QState2]) c5CreatedHook2 rfl

/-! ## C6: unhook of a pending (queued) handle -/

/-- A fresh dispatcher (protocol version unknown). -/
def c6S0 : DState :=
  { hooks := [], queuedHooks := [], protocolVersion := 0, protocolMap := none
    modules := [], nextId := 0 }

/-- The state after queueing one hook: handle object id `0`, queue
wrapper object id `1`. -/
def c6S1 : DState := (hook c6S0 "S_LOGIN" (.num 1) (.obj {}) (.fn noopCallback)).1

/-- The state after `unhook(handle)` on the pending handle (id `0`;
its `code`/`order` fields do not exist yet, and the pending branch does
not read them). -/
def c6S2 : DState := unhook c6S1 0 .unknown 0

/-- C6 (code bug).  `unhook` of a pending handle is a no-op: the source
filters `queuedHooks` with `h => h !== hook`, comparing each queued
`{ hook, args }` wrapper object against the handle object — two
distinct objects, never identical — so the queue keeps the entry, and a
later `setProtocolVersion` with a mapped version materializes the
supposedly-unhooked registration into the registry (hook id `0` appears
under opcode `100`); a second `unhook` is equally ineffective. -/
theorem c6_pending_unhook_ineffective :
    (hook c6S0 "S_LOGIN" (.num 1) (.obj {}) (.fn noopCallback)).2 = .ok 0 ∧
    c6S1.queuedHooks.map (fun q => q.wrapperId) = [1] ∧
    c6S2.queuedHooks.map (fun q => q.wrapperId) = [1] ∧
    (unhook c6S2 0 .unknown 0).queuedHooks.map (fun q => q.wrapperId) = [1] ∧
    (setProtocolVersion envMapped c6S2 361000).1.hooks.map
      (fun e => (e.1, e.2.map (fun g => (g.order, g.hooks.map (fun h => h.id))))) =
      [(.code 100, [(0, [0])])] := by
  exact ⟨rfl, rfl, rfl, rfl, rfl⟩

/-! ## C8: `hook('*', integer_version, ...)` throws -/

/-- A dispatcher with a known protocol version and map. -/
def c8S : DState :=
  { hooks := [], queuedHooks := [], protocolVersion := 1
    protocolMap := some c5Map, modules := [], nextId := 0 }

/-- C8 (code bug).  Registering a `'*'` hook with an integer version
throws instead of installing: on this path the source runs
`log.error([...]).join('\n')` — the `.join` is applied to `log.error`'s
`undefined` return value (everywhere else the file writes
`log.error([...].join('\n'))`), raising a `TypeError` before
`version = '*'` is assigned — so `createHook` raises, `hook`
propagates, and no hook is installed under `'*'`. -/
theorem c8_star_integer_version_throws :
    createHook (some c5Map) ⟨0, none⟩ "*" (.num 1) (.obj {}) (.fn noopCallback) =
      .error () ∧
    (hook c8S "*" (.num 1) (.obj {}) (.fn noopCallback)).2 = .error () ∧
    (hook c8S "*" (.num 1) (.obj {}) (.fn noopCallback)).1.hooks = [] := by
  exact ⟨rfl, rfl, rfl⟩

/-! ## C9: the client-side state-0 key exchange -/

/-- A connection awaiting the first client key. -/
def c9Conn : ConnSt := { state := 0 }

/-- A 128-byte datagram. -/
def c9Key : Bytes := List.replicate 128 7

/-- Counterexample to C9 at a concrete input: the 128-byte client
datagram in state `0` is copied into `clientKeys[0]` of both sessions
and forwarded to the server, but the connection state does not advance
to `1` — the client-data handler never writes `this.state`; only the
server-data handler does. -/
theorem c9_counterexample :
    (onSocketData c9Conn c9Key).1.session1.clientKey0 = c9Key ∧
    (onSocketData c9Conn c9Key).1.session2.clientKey0 = c9Key ∧
    (onSocketData c9Conn c9Key).2 = [.toServer c9Key] ∧
    (onSocketData c9Conn c9Key).1.state = 0 ∧
    (onSocketData c9Conn c9Key).1.state ≠ 1 := by
  refine ⟨rfl, rfl, rfl, rfl, by decide⟩

/-- C9 (amended).  For every 128-byte datagram received from the client
socket in state `0`, the bytes are copied into `clientKeys[0]` of both
sessions and the datagram is forwarded to the server, while the
connection state remains `0`; the state advances to `1` only when the
first 128-byte server key arrives on the server socket. -/
theorem c9_state0_client_key (c : ConnSt) (data : Bytes)
    (h0 : c.state = 0) (hl : data.length = 128) :
    onSocketData c data =
      ({ c with
          session1 := { c.session1 with clientKey0 := data }
          session2 := { c.session2 with clientKey0 := data } },
        [.toServer data]) ∧
    (onSocketData c data).1.state = c.state ∧
    (∀ (c' : ConnSt) (d : Bytes), c'.state = 0 → d.length = 128 →
      (onServerData c' d).1.state = 1) := by
  refine ⟨?_, ?_, ?_⟩
  · unfold onSocketData
    rw [if_pos h0, if_pos hl]
  · unfold onSocketData
    rw [if_pos h0, if_pos hl]
  · intro c' d h0' hl'
    unfold onServerData
    rw [if_neg (by omega), if_pos h0', if_pos hl']

/-- Witness for C9 (amended) at a concrete input. -/
theorem c9_witness :
    (c9Conn.state = 0 ∧ c9Key.length = 128) ∧
    onSocketData c9Conn c9Key =
      ({ c9Conn with
          session1 := { c9Conn.session1 with clientKey0 := c9Key }
          session2 := { c9Conn.session2 with clientKey0 := c9Key } },
        [.toServer c9Key]) ∧
    (onSocketData c9Conn c9Key).1.state = c9Conn.state :=
  ⟨⟨rfl, by decide⟩,
    (c9_state0_client_key c9Conn c9Key rfl (by decide)).1,
    (c9_state0_client_key c9Conn c9Key rfl (by decide)).2.1⟩



/-! ## C7: unload revokes exactly the module's hooks -/

theorem mem_registryHooks_filter (r : Registry) (p : Hook → Bool) (h : Hook) :
    h ∈ registryHooks (r.map (fun (e : RegKey × List HookGroup) =>
        (e.1, e.2.map (fun (g : HookGroup) =>
          { g with hooks := g.hooks.filter p })))) ↔
      h ∈ registryHooks r ∧ p h = true := by
  unfold registryHooks
  constructor
  · intro hmem
    obtain ⟨e, he, hh⟩ := List.mem_flatMap.1 hmem
    obtain ⟨e₀, he₀, rfl⟩ := List.mem_map.1 he
    obtain ⟨g, hg, hhk⟩ := List.mem_flatMap.1 hh
    obtain ⟨g₀, hg₀, rfl⟩ := List.mem_map.1 hg
    obtain ⟨hh₀, hp⟩ := List.mem_filter.1 hhk
    exact ⟨List.mem_flatMap.2 ⟨e₀, he₀, List.mem_flatMap.2 ⟨g₀, hg₀, hh₀⟩⟩, hp⟩
  · rintro ⟨hmem, hp⟩
    obtain ⟨e₀, he₀, hh⟩ := List.mem_flatMap.1 hmem
    obtain ⟨g₀, hg₀, hh₀⟩ := List.mem_flatMap.1 hh
    exact List.mem_flatMap.2 ⟨_, List.mem_map_of_mem _ he₀,
      List.mem_flatMap.2 ⟨_, List.mem_map_of_mem _ hg₀, List.mem_filter.2 ⟨hh₀, hp⟩⟩⟩

theorem mem_registryHooks_map (r : Registry) (f : Hook → Hook) (h : Hook) :
    h ∈ registryHooks (r.map (fun (e : RegKey × List HookGroup) =>
        (e.1, e.2.map (fun (g : HookGroup) =>
          { g with hooks := g.hooks.map f })))) ↔
      ∃ h₀ ∈ registryHooks r, h = f h₀ := by
  unfold registryHooks
  constructor
  · intro hmem
    obtain ⟨e, he, hh⟩ := List.mem_flatMap.1 hmem
    obtain ⟨e₀, he₀, rfl⟩ := List.mem_map.1 he
    obtain ⟨g, hg, hhk⟩ := List.mem_flatMap.1 hh
    obtain ⟨g₀, hg₀, rfl⟩ := List.mem_map.1 hg
    obtain ⟨h₀, hh₀, rfl⟩ := List.mem_map.1 hhk
    exact ⟨h₀, List.mem_flatMap.2 ⟨e₀, he₀, List.mem_flatMap.2 ⟨g₀, hg₀, hh₀⟩⟩, rfl⟩
  · rintro ⟨h₀, hmem, rfl⟩
    obtain ⟨e₀, he₀, hh⟩ := List.mem_flatMap.1 hmem
    obtain ⟨g₀, hg₀, hh₀⟩ := List.mem_flatMap.1 hh
    exact List.mem_flatMap.2 ⟨_, List.mem_map_of_mem _ he₀,
      List.mem_flatMap.2 ⟨_, List.mem_map_of_mem _ hg₀, List.mem_map_of_mem _ hh₀⟩⟩

/-- Every ordering obtained by `registryGet` comes from an entry of the
registry. -/
theorem registryGet_entry {r : Registry} {k : RegKey} {v : List HookGroup}
    (h : registryGet r k = some v) : ∃ e ∈ r, e.2 = v := by
  unfold registryGet at h
  rcases hf : r.find? (fun e => e.1 = k) with _ | e
  · rw [hf] at h; exact absurd h (by simp)
  · rw [hf] at h
    have h' : some e.2 = some v := h
    exact ⟨e, List.mem_of_find?_eq_some hf, Option.some.inj h'⟩

/-- A hook reachable through `registryGet` is in the registry. -/
theorem mem_registryHooks_of_get {r : Registry} {k : RegKey} {grp : HookGroup}
    {h : Hook} (hg : grp ∈ (registryGet r k).getD []) (hh : h ∈ grp.hooks) :
    h ∈ registryHooks r := by
  rcases hf : registryGet r k with _ | v
  · rw [hf] at hg; exact absurd hg (by simp)
  · rw [hf] at hg
    obtain ⟨e, he, hev⟩ := registryGet_entry hf
    unfold registryHooks
    refine List.mem_flatMap.2 ⟨e, he, List.mem_flatMap.2 ⟨grp, ?_, hh⟩⟩
    rw [hev]
    exact hg

/-- `unload` on a name with no module record fails and runs nothing. -/
theorem unload_not_loaded {s : DState} {n : String}
    (h : (s.modules.find? (fun e => e.1 = n)).map
      (fun (e : String × ModuleRec) => e.2) = none) :
    unload s n = (s, false, 0) := by
  unfold unload
  rw [h]

/-- C7.  First conjunct: for a loaded module `n`, `unload n` succeeds,
invokes the destructor exactly once when one is present, removes from
the registry exactly the hooks whose `moduleName` is `n` (all others
survive), leaves no hook of `n` reachable by the merged iteration for
any opcode, and a second `unload n` fails without invoking the
destructor again.  Second conjunct: a hook registered through the
module wrapper (`hookFromModule`, the pre-tagging entry point the
wrapper calls) carries `moduleName = n` in the registry, which is what
the removal keys on. -/
theorem c7_unload_revokes_module_hooks :
    (∀ (s : DState) (n : String) (mod : ModuleRec),
      (s.modules.find? (fun e => e.1 = n)).map (fun e => e.2) = some mod →
      (unload s n).2.1 = true ∧
      (unload s n).2.2 = (if mod.hasDestructor then 1 else 0) ∧
      (∀ h : Hook, h ∈ registryHooks (unload s n).1.hooks ↔
        h ∈ registryHooks s.hooks ∧ h.moduleName ≠ some n) ∧
      (∀ (c : Nat) (h : Hook), h ∈ iterateHooks
          ((registryGet (unload s n).1.hooks .star).getD [])
          ((registryGet (unload s n).1.hooks (.code c)).getD []) →
        h.moduleName ≠ some n) ∧
      (unload (unload s n).1 n).2.1 = false ∧
      (unload (unload s n).1 n).2.2 = 0) ∧
    (∀ (s : DState) (modName name : String) (v o cb : HookArg) (s' : DState) (hId : Nat),
      hookFromModule s modName name v o cb = (s', .ok hId) →
      ∀ h : Hook, h ∈ registryHooks s'.hooks → h.id = hId →
        h.moduleName = some modName) := by
  constructor
  · intro s n mod hmod
    have hstep : unload s n =
        ({ s with
            hooks := s.hooks.map (fun (e : RegKey × List HookGroup) =>
              (e.1, e.2.map (fun (g : HookGroup) =>
                { g with hooks := g.hooks.filter (fun h => h.moduleName ≠ some n) })))
            modules := s.modules.filter (fun e => e.1 ≠ n) }, true,
          if mod.hasDestructor then 1 else 0) := by
      unfold unload
      rw [hmod]
    have hhooks : (unload s n).1.hooks =
        s.hooks.map (fun (e : RegKey × List HookGroup) =>
          (e.1, e.2.map (fun (g : HookGroup) =>
            { g with hooks := g.hooks.filter (fun h => h.moduleName ≠ some n) }))) := by
      rw [hstep]
    have hmem : ∀ h : Hook, h ∈ registryHooks (unload s n).1.hooks ↔
        h ∈ registryHooks s.hooks ∧ h.moduleName ≠ some n := by
      intro h
      rw [hhooks, mem_registryHooks_filter]
      simp
    have hmods : (unload s n).1.modules = s.modules.filter (fun e => e.1 ≠ n) := by
      rw [hstep]
    have hsecond : ((unload s n).1.modules.find? (fun e => e.1 = n)).map
        (fun (e : String × ModuleRec) => e.2) = none := by
      rw [hmods]
      have hnone : (s.modules.filter (fun e => e.1 ≠ n)).find?
          (fun e => e.1 = n) = none := by
        rw [List.find?_eq_none]
        intro e he
        have := (List.mem_filter.1 he).2
        simpa using this
      rw [hnone]
      rfl
    refine ⟨by rw [hstep], by rw [hstep], hmem, ?_, ?_, ?_⟩
    · intro c h hh
      rcases (mem_iterateHooks _ _ h).1 hh with ⟨grp, hgrp, hhk⟩ | ⟨grp, hgrp, hhk⟩
      · exact ((hmem h).1 (mem_registryHooks_of_get hgrp hhk)).2
      · exact ((hmem h).1 (mem_registryHooks_of_get hgrp hhk)).2
    · rw [unload_not_loaded hsecond]
    · rw [unload_not_loaded hsecond]
  · intro s modName name v o cb s' hId heq h hh hid
    unfold hookFromModule at heq
    rcases hh0 : hook s name v o cb with ⟨s₁, r⟩
    rw [hh0] at heq
    cases r with
    | error e => exact absurd heq (by simp)
    | ok hId₀ =>
      rw [Prod.mk.injEq] at heq
      obtain ⟨hs', hsnd⟩ := heq
      have hid₀ : hId₀ = hId := by simpa using hsnd
      subst hid₀
      subst hs'
      obtain ⟨h₀, -, rfl⟩ := (mem_registryHooks_map s₁.hooks
        (fun hk => if hk.id = hId₀ then { hk with moduleName := some modName } else hk)
        h).1 hh
      by_cases hc : h₀.id = hId₀
      · rw [if_pos hc]
      · rw [if_neg hc] at hid ⊢
        exact absurd hid hc


/-- Hooks tagged with their owning module's name for the C7 witness. -/
def c7HookA1 : Hook :=
  ⟨10, .code 5, nullFilter, 0, .version 1, some "mod-a", noopCallback⟩

def c7HookA2 : Hook :=
  ⟨11, .code 6, nullFilter, 0, .version 1, some "mod-a", noopCallback⟩

def c7HookB : Hook :=
  ⟨12, .code 5, nullFilter, 0, .version 1, some "mod-b", noopCallback⟩

/-- Two loaded modules; `mod-a` owns two hooks (opcodes 5 and 6) and
has a destructor, `mod-b` owns one hook on opcode 5. -/
def c7State : DState :=
  { hooks := [(.code 5, [⟨0, [c7HookA1, c7HookB]⟩]), (.code 6, [⟨0, [c7HookA2]⟩])]
    queuedHooks := [], protocolVersion := 1, protocolMap := some c5Map
    modules := [("mod-a", ⟨true⟩), ("mod-b", ⟨false⟩)], nextId := 20 }

/-- Witness for C7 at a concrete input: unloading `mod-a` succeeds,
runs its destructor once, removes exactly its two hooks (`mod-b`'s
hook with id 12 survives), fails on the second attempt, and a hook
registered through the wrapper entry point is tagged with the module
name. -/
theorem c7_witness :
    ((c7State.modules.find? (fun e => e.1 = "mod-a")).map (fun e => e.2) =
      some ⟨true⟩) ∧
    (unload c7State "mod-a").2.1 = true ∧
    (unload c7State "mod-a").2.2 = 1 ∧
    (unload c7State "mod-a").1.hooks.map
      (fun e => (e.1, e.2.map (fun g => g.hooks.map (fun h => h.id)))) =
      [(.code 5, [[12]]), (.code 6, [[]])] ∧
    (unload (unload c7State "mod-a").1 "mod-a").2.1 = false ∧
    (∀ h : Hook, h ∈ registryHooks (unload c7State "mod-a").1.hooks ↔
      h ∈ registryHooks c7State.hooks ∧ h.moduleName ≠ some "mod-a") ∧
    (∀ h : Hook, h ∈ registryHooks (hookFromModule c8S "mod-a" "S_LOGIN" (.num 1)
        (.obj {}) (.fn noopCallback)).1.hooks → h.id = 0 →
      h.moduleName = some "mod-a") := by
  have H := c7_unload_revokes_module_hooks
  refine ⟨rfl, (H.1 c7State "mod-a" ⟨true⟩ rfl).1,
    (H.1 c7State "mod-a" ⟨true⟩ rfl).2.1, rfl,
    (H.1 c7State "mod-a" ⟨true⟩ rfl).2.2.2.2.1,
    (H.1 c7State "mod-a" ⟨true⟩ rfl).2.2.1, ?_⟩
  exact H.2 c8S "mod-a" "S_LOGIN" (.num 1) (.obj {}) (.fn noopCallback)
    (hookFromModule c8S "mod-a" "S_LOGIN" (.num 1) (.obj {}) (.fn noopCallback)).1 0 rfl


end TeraProxy
